import Mathlib

/-!
The program gb: bundling and restoring git repositories.

A verification development for `main.go`: the name derivation shared by backup and
restore, the worker pool of `backup` with its progress tracker, and the sequential
`restore`. Definitions come first, theorems after them.
-/

namespace Gb

/-! Section: Go strings and the library path functions used by the program

A Go string is modelled as the list of its characters. The functions below follow the
Unix implementations of the Go standard library (separator `/`, no volume names). -/

abbrev GoString := List Char

/-- The inner loop of the `..` case of `filepath.Clean`:
`out.w--; for out.w > dotdot && !IsPathSeparator(out.index(out.w)) { out.w-- }`.
The buffer is held newest byte first; the first argument after `dotdot` is the byte at
index `out.w` (the one just dropped), the second the buffer below it. -/
def cleanBacktrack (dotdot : Nat) : Char → List Char → List Char
  | _, [] => []
  | c, d :: below =>
    if (d :: below).length > dotdot ∧ c ≠ '/' then cleanBacktrack dotdot d below
    else d :: below

/-- The main loop `for r < n` of `filepath.Clean`. Arguments: whether the path is rooted,
fuel (the loop consumes at least one byte per iteration, so the length of the path is
enough), the unread input `path[r:]`, the output buffer (newest byte first) and `dotdot`.
The four branches are the four cases of the `switch`: empty element, `.` element, `..`
element (backtrack, or append `..` when not rooted, or drop at the root) and real path
element. -/
def cleanLoop (rooted : Bool) : Nat → List Char → List Char → Nat → List Char
  | 0, _, out, _ => out
  | _ + 1, [], out, _ => out
  | fuel + 1, c :: rest, out, dotdot =>
    if c = '/' then
      cleanLoop rooted fuel rest out dotdot
    else if c = '.' ∧ (rest = [] ∨ rest.head? = some '/') then
      cleanLoop rooted fuel rest out dotdot
    else if c = '.' ∧ rest.head? = some '.' ∧
        (rest.tail = [] ∨ rest.tail.head? = some '/') then
      if out.length > dotdot then
        match out with
        | [] => cleanLoop rooted fuel rest.tail out dotdot
        | o :: below => cleanLoop rooted fuel rest.tail (cleanBacktrack dotdot o below) dotdot
      else if rooted = false then
        let out1 := if out.length > 0 then '/' :: out else out
        cleanLoop rooted fuel rest.tail ('.' :: '.' :: out1) (out1.length + 2)
      else
        cleanLoop rooted fuel rest.tail out dotdot
    else
      let out1 :=
        if (rooted = true ∧ out.length ≠ 1) ∨ (rooted = false ∧ out.length ≠ 0) then '/' :: out
        else out
      cleanLoop rooted fuel ((c :: rest).dropWhile (fun x => x != '/'))
        (((c :: rest).takeWhile (fun x => x != '/')).reverse ++ out1) dotdot

/-- Go `filepath.Clean`: the empty path gives `.`; a rooted path starts the buffer with
the separator and `r, dotdot = 1, 1`; an empty result becomes `.`. -/
def Clean (path : GoString) : GoString :=
  if path = [] then ['.']
  else
    let rooted : Bool := path.head? = some '/'
    let out :=
      if rooted then cleanLoop true path.length path.tail ['/'] 1
      else cleanLoop false path.length path [] 0
    if out = [] then ['.'] else out.reverse

/-- Go `filepath.Base`: `.` for the empty path; trailing separators are stripped, the
part after the last separator is returned, and a path of separators only gives `/`. -/
def Base (path : GoString) : GoString :=
  if path = [] then ['.']
  else
    let stripped := path.reverse.dropWhile (fun x => x == '/')
    let last := (stripped.takeWhile (fun x => x != '/')).reverse
    if last = [] then ['/'] else last

/-- Go `filepath.Dir`: `Clean` of the path up to and including its last separator. -/
def Dir (path : GoString) : GoString :=
  Clean (path.reverse.dropWhile (fun x => x != '/')).reverse

/-- Go `filepath.Join`: leading empty elements are skipped, the rest is joined with the
separator and cleaned; all elements empty gives the empty string. -/
def Join (elem : List GoString) : GoString :=
  match elem.dropWhile (fun e => e.isEmpty) with
  | [] => []
  | e :: es => Clean (List.intercalate ['/'] (e :: es))

/-- Go `strings.HasSuffix`. -/
def HasSuffix (s suffix : GoString) : Bool :=
  decide (s.length ≥ suffix.length) && s.drop (s.length - suffix.length) == suffix

/-- Go `strings.TrimSuffix`. -/
def TrimSuffix (s suffix : GoString) : GoString :=
  if HasSuffix s suffix then s.take (s.length - suffix.length) else s

/-- Go `strings.HasPrefix`. -/
def HasPrefix (s pre : GoString) : Bool :=
  decide (s.length ≥ pre.length) && s.take pre.length == pre

/-- Go `strings.ToLower`, rune by rune; the rune mapping `unicode.ToLower` is a
parameter. -/
def ToLower (lower : Char → Char) (s : GoString) : GoString :=
  s.map lower

/-- The literal `".bundle"` of `bundleWorker` (line 289) and `restore` (lines 366, 398). -/
def bundleSuffix : GoString := ".bundle".data

/-- `repoName` of `bundleWorker` (lines 287-288): `filepath.Base(filepath.Dir(gitDir))`. -/
def repoNameOf (gitDir : GoString) : GoString := Base (Dir gitDir)

/-- `bundlePath` of `bundleWorker` (line 289):
`filepath.Join(config.OutputDir, repoName+".bundle")`. -/
def bundlePathOf (outputDir gitDir : GoString) : GoString :=
  Join [outputDir, repoNameOf gitDir ++ bundleSuffix]

/-- `bundleName` of `restore` (lines 366 and 398):
`strings.TrimSuffix(filepath.Base(bundleFile), ".bundle")`. -/
def bundleNameOf (bundleFile : GoString) : GoString :=
  TrimSuffix (Base bundleFile) bundleSuffix

/-! Section: Configuration and progress tracker (main.go lines 19-57, 168-193) -/

/-- The `Config` struct (lines 19-26). `MaxJobs` is a Go `int`. -/
structure Config where
  RepoDir : GoString
  OutputDir : GoString
  MaxJobs : Int
  Verbose : Bool
  Force : Bool
  Debug : Bool

/-- The `Progress` struct (lines 28-34) without its mutex. The three counters are
`int64`; they are bounded by the length of a slice, so no wrap-around can occur and
they are kept as integers. -/
structure Progress where
  Total : Int
  Current : Int
  Failed : Int
  FailedRepos : List GoString

/-- `Progress.Increment` (lines 36-38). -/
def Progress.Increment (p : Progress) : Progress :=
  { p with Current := p.Current + 1 }

/-- `Progress.AddFailed` (lines 40-45): under the mutex, append the name and add one to
`Failed`. -/
def Progress.AddFailed (p : Progress) (name : GoString) : Progress :=
  { p with FailedRepos := p.FailedRepos ++ [name], Failed := p.Failed + 1 }

/-- `Progress.GetCounts` (lines 47-49): current, failed, total. -/
def Progress.GetCounts (p : Progress) : Int × Int × Int :=
  (p.Current, p.Failed, p.Total)

/-- `Progress.GetFailedRepos` (lines 51-57): a copy of the list. -/
def Progress.GetFailedRepos (p : Progress) : List GoString :=
  p.FailedRepos

/-- `getEnvOrDefault` (lines 188-193); the environment is a lookup function, an unset
variable reads as the empty string. -/
def getEnvOrDefault (getenv : GoString → GoString) (key defaultValue : GoString) : GoString :=
  if getenv key ≠ [] then getenv key else defaultValue

/-- `initConfig` (lines 168-186). `homeDir` is the home directory found for the user;
`sscanfInt` is `fmt.Sscanf(s, "%d", &v)`, giving the value stored or nothing when the scan
fails, in which case `config.MaxJobs` keeps its zero value; `numCPU` is
`runtime.NumCPU()`. -/
def initConfig (homeDir : GoString) (getenv : GoString → GoString)
    (sscanfInt : GoString → Option Int) (numCPU : Int) : Config :=
  { RepoDir := getEnvOrDefault getenv "REPO_DIR".data (Join [homeDir, "git".data])
    OutputDir := getEnvOrDefault getenv "OUTPUT_DIR".data "/tmp".data
    MaxJobs :=
      if getenv "MAX_JOBS".data ≠ [] then
        match sscanfInt (getenv "MAX_JOBS".data) with
        | some v => v
        | none => 0
      else min numCPU 8
    Verbose := false
    Force := false
    Debug := false }

/-! Section: The backup worker pool (main.go lines 201-304)

The goroutines of `backup` are modelled as an interleaving of atomic steps chosen by a
schedule. A step of the main routine starts a worker, sends a job, closes the channel or
passes `wg.Wait()`; a step of a worker receives from the channel, runs the bundle
command, calls `AddFailed`, or calls `Increment`. A step that is not enabled (a worker
blocked on the empty open channel, the main routine blocked in `wg.Wait()`) leaves the
state unchanged. The progress monitor only reads `GetCounts`, so every reachable state is
a state it may observe. -/

/-- A job in the channel: the `gitDir` string, tagged with its index in `gitDirs` so that
two jobs with equal strings remain distinct. -/
structure Job where
  index : Nat
  gitDir : GoString
  deriving DecidableEq

/-- The jobs sent by `for _, gitDir := range gitDirs` (lines 243-245), in order. -/
def jobsOf (gitDirs : List GoString) : List Job :=
  gitDirs.enum.map (fun p => Job.mk p.1 p.2)

/-- Program counter of one `bundleWorker` goroutine (lines 283-304). -/
inductive Worker where
  /-- At `for gitDir := range jobs`, about to receive. -/
  | recv
  /-- Holding a job, about to run `git bundle create` (lines 287-295). -/
  | exec (job : Job)
  /-- The command returned an error, about to call `progress.AddFailed` (line 299). -/
  | addFailed (job : Job)
  /-- About to call `progress.Increment` (line 302). -/
  | increment (job : Job)
  /-- The range loop ended and the deferred `wg.Done()` ran. -/
  | exited
  deriving DecidableEq

/-- What a worker step did, recorded in the trace of the run. -/
inductive Event where
  /-- The bundle command ran for the job; `err` tells whether it returned an error. -/
  | bundle (job : Job) (err : Bool)
  | addFailed (job : Job)
  | increment (job : Job)
  deriving DecidableEq

/-- State of a backup run after `progress.Total` was set (line 218). -/
structure Pool where
  /-- Jobs the main routine has not sent yet. -/
  toSend : List Job
  /-- Contents of the buffered channel `jobs` (capacity `len(gitDirs)`). -/
  jobs : List Job
  /-- Whether `close(jobs)` ran. -/
  closed : Bool
  /-- The workers started so far. -/
  workers : List Worker
  /-- Whether `wg.Wait()` has returned. -/
  joined : Bool
  progress : Progress
  trace : List Event

/-- One entry of a schedule: the main routine, or worker `i`; `err` is the outcome of the
bundle command in case the step runs it. -/
inductive Sched where
  | main
  | worker (i : Nat) (err : Bool)
  deriving DecidableEq

/-- One step of the main routine of `backup` (lines 236-249): start the next worker
while `i < config.MaxJobs`, then send the jobs, then close the channel, then wait for
all workers. -/
def backupMain (cfg : Config) (s : Pool) : Pool :=
  if s.joined then s
  else if (s.workers.length : Int) < cfg.MaxJobs then
    { s with workers := s.workers ++ [Worker.recv] }
  else
    match s.toSend with
    | job :: rest => { s with toSend := rest, jobs := s.jobs ++ [job] }
    | [] =>
      if s.closed = false then { s with closed := true }
      else if s.workers.all (fun w => decide (w = Worker.exited)) then { s with joined := true }
      else s

/-- One step of the `bundleWorker` goroutine number `i` (lines 283-304). -/
def bundleWorker (i : Nat) (err : Bool) (s : Pool) : Pool :=
  match s.workers.get? i with
  | none => s
  | some Worker.recv =>
    match s.jobs with
    | job :: rest => { s with jobs := rest, workers := s.workers.set i (Worker.exec job) }
    | [] => if s.closed then { s with workers := s.workers.set i Worker.exited } else s
  | some (Worker.exec job) =>
    { s with
      workers := s.workers.set i (if err then Worker.addFailed job else Worker.increment job)
      trace := s.trace ++ [Event.bundle job err] }
  | some (Worker.addFailed job) =>
    { s with
      progress := s.progress.AddFailed (repoNameOf job.gitDir)
      workers := s.workers.set i (Worker.increment job)
      trace := s.trace ++ [Event.addFailed job] }
  | some (Worker.increment job) =>
    { s with
      progress := s.progress.Increment
      workers := s.workers.set i Worker.recv
      trace := s.trace ++ [Event.increment job] }
  | some Worker.exited => s

def step (cfg : Config) (s : Pool) : Sched → Pool
  | Sched.main => backupMain cfg s
  | Sched.worker i err => bundleWorker i err s

/-- The state reached from `s` by a schedule. -/
def run (cfg : Config) (sched : List Sched) (s : Pool) : Pool :=
  sched.foldl (step cfg) s

/-- The state at line 218: the global `progress` has its zero value except for `Total`. -/
def Pool.start (gitDirs : List GoString) : Pool :=
  { toSend := jobsOf gitDirs
    jobs := []
    closed := false
    workers := []
    joined := false
    progress := { Total := gitDirs.length, Current := 0, Failed := 0, FailedRepos := [] }
    trace := [] }

/-- The two errors `backup` can return (lines 208 and 215). -/
inductive BackupError where
  | createOutputDir
  | findRepositories
  deriving DecidableEq

/-- Whether a function has returned under the given schedule, and with which error. -/
inductive Return (ε : Type) where
  | running
  | returned (err : Option ε)
  deriving DecidableEq

/-- The exit status given by the command runners in `main` (lines 101-106 and 141-145):
`os.Exit(1)` when the function returned an error, and a normal exit otherwise. -/
def exitStatus {ε : Type} : Option ε → Nat
  | some _ => 1
  | none => 0

/-- The numbers printed by `backup` after the join (lines 253-272). -/
structure Summary where
  current : Int
  total : Int
  failedRepos : List GoString
  success : Int
  failed : Int
  parallelJobs : Int
  deriving DecidableEq

structure BackupRun where
  ret : Return BackupError
  pool : Pool
  summary : Option Summary

/-- Lines 253-272: `current, failed, total := progress.GetCounts()`,
`failedRepos := progress.GetFailedRepos()`, `success := total - failed`. -/
def summarize (cfg : Config) (p : Progress) : Summary :=
  { current := p.GetCounts.1
    total := p.GetCounts.2.2
    failedRepos := p.GetFailedRepos
    success := p.GetCounts.2.2 - p.GetCounts.2.1
    failed := p.GetCounts.2.1
    parallelJobs := cfg.MaxJobs }

/-- The function `backup` (lines 201-281). `mkdirAllOk` tells whether `os.MkdirAll`
succeeded, `find` is the result of the `find` command (nothing when it failed), `sched`
is the interleaving of the goroutines. When the schedule ends before `wg.Wait()` has
returned the result is `running`. -/
def backup (cfg : Config) (mkdirAllOk : Bool) (find : Option (List GoString))
    (sched : List Sched) : BackupRun :=
  if mkdirAllOk = false then
    { ret := Return.returned (some BackupError.createOutputDir), pool := Pool.start [],
      summary := none }
  else
    match find with
    | none =>
      { ret := Return.returned (some BackupError.findRepositories), pool := Pool.start [],
        summary := none }
    | some gitDirs =>
      if (Pool.start gitDirs).progress.Total = 0 then
        { ret := Return.returned none, pool := Pool.start gitDirs, summary := none }
      else
        let s := run cfg sched (Pool.start gitDirs)
        if s.joined then
          { ret := Return.returned none, pool := s, summary := some (summarize cfg s.progress) }
        else
          { ret := Return.running, pool := s, summary := none }

/-! Section: Restore (main.go lines 336-437)

`restore` is sequential. The file system and the external `git clone` are reached
through the operations of `RestoreOS`, over an arbitrary world state. -/

/-- Result of `os.Stat` as the program observes it: `err == nil`, `os.IsNotExist(err)`,
or another error. -/
inductive StatResult where
  | ok
  | notExist
  | otherError
  deriving DecidableEq

/-- The operations `restore` calls outside the program. A boolean result is true when
the returned error is nil. -/
structure RestoreOS (σ : Type) where
  /-- `os.Stat(path)`. -/
  stat : σ → GoString → StatResult
  /-- `os.MkdirAll(path, 0755)`. -/
  mkdirAll : σ → GoString → Bool × σ
  /-- `filepath.Glob(pattern)`; nothing when it returns an error. -/
  glob : σ → GoString → Option (List GoString)
  /-- `os.RemoveAll(path)`. -/
  removeAll : σ → GoString → Bool × σ
  /-- The command `git clone bundleFile destPath`. -/
  gitClone : σ → GoString → GoString → Bool × σ
  /-- The rune mapping `unicode.ToLower` used by `strings.ToLower`. -/
  toLower : Char → Char

/-- The three errors `restore` can return (lines 343, 348, 355). -/
inductive RestoreError where
  | bundleDirMissing
  | createDestDir
  | findBundles
  deriving DecidableEq

/-- Record of one iteration of the restore loop (lines 397-426). -/
structure Attempt where
  bundleFile : GoString
  bundleName : GoString
  destPath : GoString
  /-- Nothing when `os.Stat(destPath)` gave an error, so that no removal ran; otherwise
  whether `os.RemoveAll` succeeded. -/
  removeAll : Option Bool
  /-- Nothing when no clone ran; otherwise whether `git clone` succeeded. -/
  clone : Option Bool
  deriving DecidableEq

/-- The iteration ran `failedCount++`: the removal failed or the clone failed. -/
def Attempt.failed (a : Attempt) : Bool :=
  a.removeAll == some false || a.clone == some false

/-- The iteration ran `successCount++`: the clone succeeded. -/
def Attempt.succeeded (a : Attempt) : Bool :=
  a.clone == some true

/-- State carried by the restore loop: the world, the two counters (lines 394-395), and
the record of the iterations made. -/
structure RestoreLoop (σ : Type) where
  world : σ
  successCount : Int
  failedCount : Int
  attempts : List Attempt

/-- Lines 414-425: run `git clone` in world `w` and count the outcome. -/
def restoreClone {σ : Type} (os : RestoreOS σ) (st : RestoreLoop σ) (w : σ)
    (bundleFile bundleName destPath : GoString) (removed : Option Bool) : RestoreLoop σ :=
  if (os.gitClone w bundleFile destPath).1 = false then
    { world := (os.gitClone w bundleFile destPath).2
      successCount := st.successCount
      failedCount := st.failedCount + 1
      attempts := st.attempts ++ [⟨bundleFile, bundleName, destPath, removed, some false⟩] }
  else
    { world := (os.gitClone w bundleFile destPath).2
      successCount := st.successCount + 1
      failedCount := st.failedCount
      attempts := st.attempts ++ [⟨bundleFile, bundleName, destPath, removed, some true⟩] }

/-- Body of the restore loop (lines 397-426): when `os.Stat(destPath)` succeeds remove
the directory, and on a removal error count a failure and continue with the next bundle;
otherwise clone. -/
def restoreOne {σ : Type} (os : RestoreOS σ) (destDir : GoString) (st : RestoreLoop σ)
    (bundleFile : GoString) : RestoreLoop σ :=
  if os.stat st.world (Join [destDir, bundleNameOf bundleFile]) = StatResult.ok then
    if (os.removeAll st.world (Join [destDir, bundleNameOf bundleFile])).1 = false then
      { world := (os.removeAll st.world (Join [destDir, bundleNameOf bundleFile])).2
        successCount := st.successCount
        failedCount := st.failedCount + 1
        attempts := st.attempts ++
          [⟨bundleFile, bundleNameOf bundleFile, Join [destDir, bundleNameOf bundleFile],
            some false, none⟩] }
    else
      restoreClone os st (os.removeAll st.world (Join [destDir, bundleNameOf bundleFile])).2
        bundleFile (bundleNameOf bundleFile) (Join [destDir, bundleNameOf bundleFile])
        (some true)
  else
    restoreClone os st st.world bundleFile (bundleNameOf bundleFile)
      (Join [destDir, bundleNameOf bundleFile]) none

/-- The list `existingRepos` built by lines 363-371. -/
def existingReposOf {σ : Type} (os : RestoreOS σ) (w : σ) (destDir : GoString)
    (bundleFiles : List GoString) : List GoString :=
  bundleFiles.foldl
    (fun existingRepos bundleFile =>
      if os.stat w (Join [destDir, bundleNameOf bundleFile]) = StatResult.ok then
        existingRepos ++ [bundleNameOf bundleFile]
      else existingRepos)
    []

/-- What a call of `restore` did and returned. -/
structure RestoreRun (σ : Type) where
  err : Option RestoreError
  world : σ
  /-- The names printed under the overwrite warning (lines 375-378), when it was printed. -/
  warned : Option (List GoString)
  /-- Whether the run ended at `Restore cancelled by user` (lines 384-387). -/
  cancelled : Bool
  attempts : List Attempt
  totalCount : Int
  successCount : Int
  failedCount : Int

/-- Lines 393-436: the loop over all bundle files and the summary. -/
def restoreLoop {σ : Type} (os : RestoreOS σ) (destDir : GoString)
    (bundleFiles : List GoString) (w : σ) (warned : Option (List GoString)) : RestoreRun σ :=
  let st := bundleFiles.foldl (restoreOne os destDir)
    { world := w, successCount := 0, failedCount := 0, attempts := [] }
  { err := none
    world := st.world
    warned := warned
    cancelled := false
    attempts := st.attempts
    totalCount := bundleFiles.length
    successCount := st.successCount
    failedCount := st.failedCount }

/-- Lines 358-436 of `restore`, from the check for an empty glob result on. `response` is
the string left in `response` by `fmt.Scanln`. -/
def restoreFrom {σ : Type} (os : RestoreOS σ) (cfg : Config) (response : GoString)
    (destDir : GoString) (bundleFiles : List GoString) (w : σ) : RestoreRun σ :=
  if bundleFiles.length = 0 then
    { err := none, world := w, warned := none, cancelled := false, attempts := [],
      totalCount := 0, successCount := 0, failedCount := 0 }
  else if (existingReposOf os w destDir bundleFiles).length > 0 ∧ cfg.Force = false then
    if HasPrefix (ToLower os.toLower response) "y".data = false then
      { err := none, world := w, warned := some (existingReposOf os w destDir bundleFiles),
        cancelled := true, attempts := [], totalCount := 0, successCount := 0,
        failedCount := 0 }
    else
      restoreLoop os destDir bundleFiles w (some (existingReposOf os w destDir bundleFiles))
  else
    restoreLoop os destDir bundleFiles w none

/-- The function `restore` (lines 336-437). -/
def restore {σ : Type} (os : RestoreOS σ) (cfg : Config) (response : GoString)
    (bundleDir destDir : GoString) (w : σ) : RestoreRun σ :=
  if os.stat w bundleDir = StatResult.notExist then
    { err := some RestoreError.bundleDirMissing, world := w, warned := none,
      cancelled := false, attempts := [], totalCount := 0, successCount := 0,
      failedCount := 0 }
  else if (os.mkdirAll w destDir).1 = false then
    { err := some RestoreError.createDestDir, world := (os.mkdirAll w destDir).2,
      warned := none, cancelled := false, attempts := [], totalCount := 0,
      successCount := 0, failedCount := 0 }
  else
    match os.glob (os.mkdirAll w destDir).2 (Join [bundleDir, "*.bundle".data]) with
    | none =>
      { err := some RestoreError.findBundles, world := (os.mkdirAll w destDir).2,
        warned := none, cancelled := false, attempts := [], totalCount := 0,
        successCount := 0, failedCount := 0 }
    | some bundleFiles =>
      restoreFrom os cfg response destDir bundleFiles (os.mkdirAll w destDir).2

/-! Section: A model of the destination directory -/

/-- The destination directory as a map from destination path to the contents of the
directory there. -/
abbrev DestDir := GoString → Option GoString

def DestDir.remove (fs : DestDir) (path : GoString) : DestDir :=
  fun p => if p = path then none else fs p

def DestDir.put (fs : DestDir) (path contents : GoString) : DestDir :=
  fun p => if p = path then some contents else fs p

def DestDir.leave (fs : DestDir) (path : GoString) (left : Option GoString) : DestDir :=
  fun p => if p = path then left else fs p

/-- Deterministic operations on `DestDir`. A path exists when it has contents. A delete
of `path` in state `fs` succeeds when `deleteOk fs path`, and then removes exactly that
entry; a delete that fails leaves the state `afterFailedDelete fs path`, since
`os.RemoveAll` removes what it can before it returns the first error. A clone into an
existing destination fails and changes nothing. A clone into an absent destination writes
`contents bundleFile` there when `cloneOk`, and otherwise fails and leaves
`afterFailedClone bundleFile destPath` there (nothing when git removed what it created). -/
def destDirOS (deleteOk : DestDir → GoString → Bool)
    (afterFailedDelete : DestDir → GoString → DestDir)
    (cloneOk : GoString → GoString → Bool)
    (afterFailedClone : GoString → GoString → Option GoString)
    (contents : GoString → GoString) : RestoreOS DestDir :=
  { stat := fun fs path => if (fs path).isSome then StatResult.ok else StatResult.notExist
    mkdirAll := fun fs _ => (true, fs)
    glob := fun _ _ => some []
    removeAll := fun fs path =>
      if deleteOk fs path then (true, fs.remove path) else (false, afterFailedDelete fs path)
    gitClone := fun fs bundleFile destPath =>
      if (fs destPath).isSome then (false, fs)
      else if cloneOk bundleFile destPath then (true, fs.put destPath (contents bundleFile))
      else (false, fs.leave destPath (afterFailedClone bundleFile destPath))
    toLower := Char.toLower }

/-- A configuration with the force flag set. -/
def forceConfig : Config :=
  { RepoDir := [], OutputDir := [], MaxJobs := 1, Verbose := false, Force := true,
    Debug := false }

/-- A path element that Clean copies unchanged. -/
def NormalElem (name : GoString) : Prop :=
  name ≠ [] ∧ '/' ∉ name ∧ name ≠ ['.'] ∧ name ≠ ['.', '.']

/-! Section: Definitions used to state and prove the properties -/

def Worker.inExec : Worker → Option Job
  | Worker.exec job => some job
  | _ => none

def Worker.inAddFailed : Worker → Option Job
  | Worker.addFailed job => some job
  | _ => none

def Worker.inIncrement : Worker → Option Job
  | Worker.increment job => some job
  | _ => none

def Event.failedJob : Event → Option Job
  | Event.bundle job true => some job
  | _ => none

def Event.okJob : Event → Option Job
  | Event.bundle job false => some job
  | _ => none

def Event.bundledJob : Event → Option Job
  | Event.bundle job _ => some job
  | _ => none

def Event.addedJob : Event → Option Job
  | Event.addFailed job => some job
  | _ => none

def Event.incrementedJob : Event → Option Job
  | Event.increment job => some job
  | _ => none

/-- Jobs whose bundle command returned an error, in the order the commands finished. -/
def failedJobs (tr : List Event) : List Job := tr.filterMap Event.failedJob

/-- Jobs whose bundle command succeeded. -/
def okJobs (tr : List Event) : List Job := tr.filterMap Event.okJob

/-- Jobs whose bundle command ran. -/
def bundledJobs (tr : List Event) : List Job := tr.filterMap Event.bundledJob

/-- Jobs for which `AddFailed` was called. -/
def addedJobs (tr : List Event) : List Job := tr.filterMap Event.addedJob

/-- Jobs for which `Increment` was called. -/
def incrementedJobs (tr : List Event) : List Job := tr.filterMap Event.incrementedJob

/-- Steps a worker still has to take before it can receive again or exit. -/
def Worker.weight : Worker → Nat
  | Worker.recv => 1
  | Worker.exec _ => 4
  | Worker.addFailed _ => 3
  | Worker.increment _ => 2
  | Worker.exited => 0

/-- A bound on the number of enabled steps left; every enabled step lowers it. -/
def Pool.measure (cfg : Config) (s : Pool) : Nat :=
  (if s.joined then 0 else 1) + (if s.closed then 0 else 1) +
    2 * (cfg.MaxJobs - s.workers.length).toNat + 5 * s.toSend.length + 4 * s.jobs.length +
    (s.workers.map Worker.weight).sum

/-- A configuration with the given worker count, used for concrete runs. -/
def demoConfig (maxJobs : Int) : Config :=
  { RepoDir := "/r".data, OutputDir := "/tmp".data, MaxJobs := maxJobs, Verbose := false,
    Force := false, Debug := false }

/-- A schedule for one worker and two jobs: the main routine starts the worker, sends
both jobs and closes the channel; the worker handles the first job with command outcome
`err1` and the second with `err2`, then exits; the main routine passes the join. -/
def demoSchedule (err1 err2 : Bool) : List Sched :=
  [Sched.main, Sched.main, Sched.main, Sched.main,
    Sched.worker 0 err1, Sched.worker 0 err1, Sched.worker 0 err1, Sched.worker 0 err1,
    Sched.worker 0 err2, Sched.worker 0 err2, Sched.worker 0 err2, Sched.worker 0 err2,
    Sched.worker 0 err2, Sched.main]

/-- Invariant of the backup pool. Every job is in exactly one place (not yet sent, in the
channel, held by a worker, or done); the trace, the worker states and the progress
counters agree; workers exit only after the channel is closed and drained. -/
structure Inv (cfg : Config) (gitDirs : List GoString) (s : Pool) : Prop where
  place : ∀ j : Job, s.toSend.count j + s.jobs.count j +
      (s.workers.filterMap Worker.inExec).count j +
      (s.workers.filterMap Worker.inAddFailed).count j +
      (s.workers.filterMap Worker.inIncrement).count j +
      (incrementedJobs s.trace).count j = (jobsOf gitDirs).count j
  failed : ∀ j : Job, (failedJobs s.trace).count j =
      (s.workers.filterMap Worker.inAddFailed).count j + (addedJobs s.trace).count j
  bundled : ∀ j : Job, (bundledJobs s.trace).count j =
      (s.workers.filterMap Worker.inAddFailed).count j +
      (s.workers.filterMap Worker.inIncrement).count j + (incrementedJobs s.trace).count j
  sizes : s.toSend.length + s.jobs.length + (s.workers.filterMap Worker.inExec).length +
      (s.workers.filterMap Worker.inAddFailed).length +
      (s.workers.filterMap Worker.inIncrement).length +
      (incrementedJobs s.trace).length = gitDirs.length
  added_le : (addedJobs s.trace).length ≤
      (s.workers.filterMap Worker.inIncrement).length + (incrementedJobs s.trace).length
  total : s.progress.Total = gitDirs.length
  current : s.progress.Current = (incrementedJobs s.trace).length
  nfailed : s.progress.Failed = (addedJobs s.trace).length
  names : s.progress.FailedRepos = (addedJobs s.trace).map (fun j => repoNameOf j.gitDir)
  closed_send : s.closed = true → s.toSend = []
  exited_closed : Worker.exited ∈ s.workers → s.closed = true ∧ s.jobs = []
  joined_done : s.joined = true →
      (∀ w ∈ s.workers, w = Worker.exited) ∧ cfg.MaxJobs ≤ s.workers.length ∧ s.closed = true
  spawned : (s.workers.length : Int) ≤ max cfg.MaxJobs 0

/-- Bookkeeping invariant of the restore loop: the two counters count the
recorded attempts, and every recorded attempt is well formed. -/
structure LoopOK {σ : Type} (destDir : GoString) (st : RestoreLoop σ) : Prop where
  success : st.successCount = ((st.attempts.filter Attempt.succeeded).length : Int)
  failure : st.failedCount = ((st.attempts.filter Attempt.failed).length : Int)
  shape : ∀ a ∈ st.attempts,
    a.failed = !a.succeeded ∧ (a.removeAll = some false → a.clone = none) ∧
      a.bundleName = bundleNameOf a.bundleFile ∧
      a.destPath = Join [destDir, bundleNameOf a.bundleFile]

/-- The response begins with `y` or `Y`. -/
def beginsWithY (response : GoString) : Prop :=
  response.head? = some 'y' ∨ response.head? = some 'Y'

/-- One restore job as the restore loop is described: in world `w` the job for
`bundleFile` has the destination `Join(destDir, TrimSuffix(Base(bundleFile), ".bundle"))`;
when that path stats without error it is removed, and a failed removal ends the job with
no clone; otherwise the bundle is cloned. The attempt `a` records what `os.RemoveAll` and
`git clone` returned and `w'` is the world they left. -/
def jobRan {σ : Type} (os : RestoreOS σ) (destDir : GoString) (w : σ)
    (bundleFile : GoString) (a : Attempt) (w' : σ) : Prop :=
  a.bundleFile = bundleFile ∧
  a.bundleName = TrimSuffix (Base bundleFile) bundleSuffix ∧
  a.destPath = Join [destDir, TrimSuffix (Base bundleFile) bundleSuffix] ∧
  (os.stat w a.destPath ≠ StatResult.ok →
    a.removeAll = none ∧
    a.clone = some (os.gitClone w bundleFile a.destPath).1 ∧
    w' = (os.gitClone w bundleFile a.destPath).2) ∧
  (os.stat w a.destPath = StatResult.ok → (os.removeAll w a.destPath).1 = false →
    a.removeAll = some false ∧ a.clone = none ∧ w' = (os.removeAll w a.destPath).2) ∧
  (os.stat w a.destPath = StatResult.ok → (os.removeAll w a.destPath).1 = true →
    a.removeAll = some true ∧
    a.clone = some (os.gitClone (os.removeAll w a.destPath).2 bundleFile a.destPath).1 ∧
    w' = (os.gitClone (os.removeAll w a.destPath).2 bundleFile a.destPath).2)

/-- The jobs for the bundle files ran one after the other, in order, each in the world
the previous one left: `attempts` holds one record per bundle file and `w'` is the final
world. -/
def jobsRan {σ : Type} (os : RestoreOS σ) (destDir : GoString) :
    σ → List GoString → List Attempt → σ → Prop
  | w, [], [], w' => w' = w
  | w, b :: bs, a :: rest, w' => ∃ w1, jobRan os destDir w b a w1 ∧ jobsRan os destDir w1 bs rest w'
  | _, [], _ :: _, _ => False
  | _, _ :: _, [], _ => False

/-- The state after one restore job in which no delete failed: the destination of the
bundle file holds what the clone wrote, or what the failed clone left. -/
def DestDir.recloned (cloneOk : GoString → GoString → Bool)
    (afterFailedClone : GoString → GoString → Option GoString)
    (contents : GoString → GoString) (destDir : GoString) (fs : DestDir)
    (bundleFile : GoString) : DestDir :=
  fun p =>
    if p = Join [destDir, bundleNameOf bundleFile] then
      if cloneOk bundleFile p then some (contents bundleFile) else afterFailedClone bundleFile p
    else fs p

/-- Contents at destination path `q` after the bundle files were restored over the state
`fs` with every delete succeeding: what the last bundle file with that destination
cloned (what its failed clone left when it failed), or the old contents when no bundle
file has that destination. -/
def recreated (cloneOk : GoString → GoString → Bool)
    (afterFailedClone : GoString → GoString → Option GoString)
    (contents : GoString → GoString) (destDir : GoString) (bundleFiles : List GoString)
    (fs : DestDir) (q : GoString) : Option GoString :=
  match bundleFiles.reverse.find? (fun b => decide (Join [destDir, bundleNameOf b] = q)) with
  | some b => if cloneOk b q then some (contents b) else afterFailedClone b q
  | none => fs q

/-- A destination in which every delete is refused, changing nothing, and every clone
into an absent path succeeds. -/
def refusingOS : RestoreOS DestDir :=
  destDirOS (fun _ _ => false) (fun fs _ => fs) (fun _ _ => true) (fun _ _ => none) (fun b => b)

/-- A destination in which every delete fails after it has emptied the directory, and
every clone into an absent path succeeds. -/
def emptyingOS : RestoreOS DestDir :=
  destDirOS (fun _ _ => false) (fun fs path => fs.put path []) (fun _ _ => true) (fun _ _ => none) (fun b => b)

/-- A destination in which a directory holding the contents `locked` cannot be deleted,
the failed delete leaving it with the contents `open`, and everything else can; every
clone into an absent path succeeds. -/
def lockedOS : RestoreOS DestDir :=
  destDirOS (fun fs path => decide (fs path ≠ some "locked".data))
    (fun fs path => fs.put path "open".data) (fun _ _ => true) (fun _ _ => none) (fun b => b)

/-- A destination in which every delete and every clone into an absent path succeeds. -/
def workingOS : RestoreOS DestDir :=
  destDirOS (fun _ _ => true) (fun fs _ => fs) (fun _ _ => true) (fun _ _ => none) (fun b => b)

/-- A destination in which /d/x cannot be deleted (the failed delete empties it) and
y.bundle cannot be cloned; every other delete and clone succeeds. -/
def mixedOS : RestoreOS DestDir :=
  destDirOS (fun _ path => decide (path ≠ "/d/x".data)) (fun fs path => fs.put path [])
    (fun bundleFile _ => decide (bundleFile ≠ "/b/y.bundle".data)) (fun _ _ => none)
    (fun b => b)

/-- A destination in which every clone fails; the glob finds two bundle files. -/
def demoOS : RestoreOS DestDir :=
  { destDirOS (fun _ _ => true) (fun fs _ => fs) (fun _ _ => false) (fun _ _ => none) (fun b => b) with
    glob := fun _ _ => some ["/b/x.bundle".data, "/b/y.bundle".data] }

/-- A state in which the bundle directory /b and the destination /d/x exist. -/
def demoFS : DestDir :=
  fun p => if p = "/b".data ∨ p = "/d/x".data then some [] else none

/-- The empty destination. -/
def emptyFS : DestDir :=
  fun _ => none

/-- A destination in which /d/x exists with the contents `locked`. -/
def lockedFS : DestDir :=
  fun p => if p = "/d/x".data then some "locked".data else none

/-- A destination in which /d/A and /d/B exist. -/
def demoFSAB : DestDir :=
  fun p => if p = "/d/A".data ∨ p = "/d/B".data then some [] else none

/-! Section: Path functions: the last element survives `Clean` -/

theorem takeWhile_noSlash (name rest : List Char) (h : '/' ∉ name)
    (hr : rest = [] ∨ rest.head? = some '/') :
    (name ++ rest).takeWhile (fun x => x != '/') = name := by
  induction name with
  | nil =>
    rcases hr with rfl | hr
    · rfl
    · cases rest with
      | nil => rfl
      | cons a t =>
        simp at hr
        subst hr
        simp
  | cons a t ih =>
    have ha : a ≠ '/' := fun e => h (by simp [e])
    have ht : '/' ∉ t := fun e => h (by simp [e])
    simp [List.takeWhile_cons, ha, ih ht]

theorem dropWhile_noSlash (name : List Char) (h : '/' ∉ name) :
    name.dropWhile (fun x => x != '/') = [] := by
  induction name with
  | nil => rfl
  | cons a t ih =>
    have ha : a ≠ '/' := fun e => h (by simp [e])
    have ht : '/' ∉ t := fun e => h (by simp [e])
    simp [List.dropWhile_cons, ha, ih ht]

theorem Base_append_elem (pre name : List Char) (hn : name ≠ []) (hs : '/' ∉ name)
    (hp : pre = [] ∨ pre.head? = some '/') :
    Base (pre.reverse ++ name) = name := by
  have hne : pre.reverse ++ name ≠ [] := by simp [hn]
  have hlast : ∃ c t, name.reverse = c :: t ∧ c ≠ '/' := by
    cases hrev : name.reverse with
    | nil => simp at hrev; exact absurd hrev hn
    | cons c t =>
      refine ⟨c, t, rfl, ?_⟩
      intro e
      apply hs
      have : c ∈ name.reverse := by simp [hrev]
      simpa [e] using this
  obtain ⟨c, t, hct, hc⟩ := hlast
  have hs' : '/' ∉ name.reverse := by simpa using hs
  unfold Base
  simp only [hne, if_false, List.reverse_append, List.reverse_reverse]
  have hdrop : (name.reverse ++ pre).dropWhile (fun x => x == '/') = name.reverse ++ pre := by
    rw [hct]
    simp [List.dropWhile_cons, hc]
  rw [hdrop, takeWhile_noSlash _ _ hs' hp]
  simp [hn]

theorem getLast?_cons_of_ne_nil (a : Char) (l : List Char) (h : l ≠ []) :
    (a :: l).getLast? = l.getLast? := by
  cases l with
  | nil => exact absurd rfl h
  | cons b t => simp

theorem cleanBacktrack_getLast? (dotdot : Nat) (hd : 1 ≤ dotdot) :
    ∀ (below : List Char) (c : Char), dotdot ≤ below.length →
      (cleanBacktrack dotdot c below).getLast? = below.getLast? := by
  intro below
  induction below with
  | nil => intro c h; simp at h; omega
  | cons d t ih =>
    intro c h
    rw [cleanBacktrack]
    split_ifs with hc
    · have hlen : dotdot ≤ t.length := by
        have := hc.1
        simp at this
        omega
      have ht : t ≠ [] := by
        intro e
        subst e
        simp at hlen
        omega
      rw [ih d hlen, getLast?_cons_of_ne_nil d t ht]
    · rfl

theorem cleanLoop_nil (rooted : Bool) (fuel : Nat) (out : List Char) (dotdot : Nat) :
    cleanLoop rooted fuel [] out dotdot = out := by
  cases fuel <;> rfl

theorem dropWhile_to_slash (name : List Char) :
    ∀ l : List Char, l.getLast? = some '/' →
      ∃ l', (l ++ name).dropWhile (fun x => x != '/') = l' ++ name ∧
        l'.getLast? = some '/' ∧ l'.length ≤ l.length := by
  intro l
  induction l with
  | nil => intro h; simp at h
  | cons a t ih =>
    intro h
    by_cases ha : a = '/'
    · refine ⟨a :: t, ?_, h, le_refl _⟩
      subst ha
      simp
    · have ht : t ≠ [] := by
        intro e
        subst e
        simp at h
        exact ha h
      rw [getLast?_cons_of_ne_nil a t ht] at h
      obtain ⟨l', h1, h2, h3⟩ := ih h
      refine ⟨l', ?_, h2, ?_⟩
      · simp [List.dropWhile_cons, ha, h1]
      · simp
        omega

theorem cleanLoop_succ_cons (rooted : Bool) (fuel : Nat) (c : Char) (rest out : List Char)
    (dotdot : Nat) :
    cleanLoop rooted (fuel + 1) (c :: rest) out dotdot =
      if c = '/' then
        cleanLoop rooted fuel rest out dotdot
      else if c = '.' ∧ (rest = [] ∨ rest.head? = some '/') then
        cleanLoop rooted fuel rest out dotdot
      else if c = '.' ∧ rest.head? = some '.' ∧
          (rest.tail = [] ∨ rest.tail.head? = some '/') then
        if out.length > dotdot then
          match out with
          | [] => cleanLoop rooted fuel rest.tail out dotdot
          | o :: below => cleanLoop rooted fuel rest.tail (cleanBacktrack dotdot o below) dotdot
        else if rooted = false then
          cleanLoop rooted fuel rest.tail
            ('.' :: '.' :: (if out.length > 0 then '/' :: out else out))
            ((if out.length > 0 then '/' :: out else out).length + 2)
        else
          cleanLoop rooted fuel rest.tail out dotdot
      else
        cleanLoop rooted fuel ((c :: rest).dropWhile (fun x => x != '/'))
          (((c :: rest).takeWhile (fun x => x != '/')).reverse ++
            (if (rooted = true ∧ out.length ≠ 1) ∨ (rooted = false ∧ out.length ≠ 0)
              then '/' :: out else out)) dotdot := by
  rfl

/-- The loop of Clean keeps a final normal element: whatever precedes it, the
buffer ends with that element, directly after a separator or at the start. -/
theorem cleanLoop_keeps_last (rooted : Bool) (name : List Char) (hn : NormalElem name) :
    ∀ (fuel : Nat) (mid out : List Char) (dotdot : Nat),
      (mid = [] ∨ mid.getLast? = some '/') →
      (mid ++ name).length ≤ fuel →
      (rooted = true → out.getLast? = some '/' ∧ 1 ≤ dotdot) →
      ∃ pre, cleanLoop rooted fuel (mid ++ name) out dotdot = name.reverse ++ pre ∧
        (pre = [] ∨ pre.head? = some '/') := by
  obtain ⟨hne, hns, hdot, hdotdot⟩ := hn
  intro fuel
  induction fuel with
  | zero =>
    intro mid out dotdot _ hlen
    simp at hlen
    exact absurd hlen.2 hne
  | succ fuel ih =>
    intro mid out dotdot hmid hlen hinv
    cases mid with
    | nil =>
      cases hname : name with
      | nil => exact absurd hname hne
      | cons c t =>
        have hc : c ≠ '/' := by
          intro e
          apply hns
          simp [hname, e]
        have hts : '/' ∉ t := by
          intro e
          apply hns
          simp [hname, e]
        have h1 : ¬ (c = '.' ∧ (t = [] ∨ t.head? = some '/')) := by
          rintro ⟨e, h | h⟩
          · exact hdot (by simp [hname, e, h])
          · cases t with
            | nil => simp at h
            | cons b u =>
              simp at h
              exact hts (by simp [h])
        have h2 : ¬ (c = '.' ∧ t.head? = some '.' ∧
            (t.tail = [] ∨ t.tail.head? = some '/')) := by
          rintro ⟨e, h, h3⟩
          cases t with
          | nil => simp at h
          | cons b u =>
            simp at h
            rcases h3 with h3 | h3
            · simp at h3
              exact hdotdot (by simp [hname, e, h, h3])
            · cases u with
              | nil => simp at h3
              | cons b2 u2 =>
                simp at h3
                exact hts (by simp [h3])
        have hns' : '/' ∉ c :: t := by rw [← hname]; exact hns
        have htw : (c :: t).takeWhile (fun x => x != '/') = c :: t := by
          have := takeWhile_noSlash (c :: t) [] hns' (Or.inl rfl)
          simpa using this
        have hdw : (c :: t).dropWhile (fun x => x != '/') = [] :=
          dropWhile_noSlash (c :: t) hns'
        simp only [List.nil_append]
        rw [cleanLoop_succ_cons]
        simp only [hc, h1, h2, if_false, htw, hdw, cleanLoop_nil]
        refine ⟨_, rfl, ?_⟩
        split_ifs with hsep
        · right; rfl
        · cases hr : rooted with
          | false =>
            left
            simp [hr] at hsep
            exact hsep
          | true =>
            right
            simp [hr] at hsep
            obtain ⟨hl, _⟩ := hinv hr
            match out, hsep, hl with
            | [x], _, hl => simpa using hl
    | cons m mid' =>
      have hmid0 : (m :: mid').getLast? = some '/' := by
        rcases hmid with h | h
        · exact absurd h (by simp)
        · exact h
      have hmid1 : m ≠ '/' → mid' ≠ [] ∧ mid'.getLast? = some '/' := by
        intro hm
        have : mid' ≠ [] := by
          intro e
          subst e
          simp at hmid0
          exact hm hmid0
        exact ⟨this, by rw [← getLast?_cons_of_ne_nil m mid' this]; exact hmid0⟩
      have hlen' : (mid' ++ name).length ≤ fuel := by
        simp at hlen ⊢
        omega
      simp only [List.cons_append]
      rw [cleanLoop_succ_cons]
      by_cases hm : m = '/'
      · simp only [hm, if_true]
        apply ih mid' out dotdot _ hlen' hinv
        cases mid' with
        | nil => left; rfl
        | cons b u =>
          right
          simpa using hmid0
      · obtain ⟨hne', hlast'⟩ := hmid1 hm
        simp only [hm, if_false]
        by_cases h1 : m = '.' ∧ (mid' ++ name = [] ∨ (mid' ++ name).head? = some '/')
        · -- "." element
          rw [if_pos h1]
          exact ih mid' out dotdot (Or.inr hlast') hlen' hinv
        rw [if_neg h1]
        by_cases h2 : m = '.' ∧ (mid' ++ name).head? = some '.' ∧
            ((mid' ++ name).tail = [] ∨ (mid' ++ name).tail.head? = some '/')
        · -- ".." element
          rw [if_pos h2]
          obtain ⟨_, hh, _⟩ := h2
          cases mid' with
          | nil => exact absurd rfl hne'
          | cons m2 midB =>
            simp at hh
            have hm2 : m2 ≠ '/' := by rw [hh]; decide
            have hne2 : midB ≠ [] := by
              intro e
              subst e
              simp at hlast'
              exact hm2 hlast'
            have hlast2 : midB.getLast? = some '/' := by
              rw [← getLast?_cons_of_ne_nil m2 midB hne2]; exact hlast'
            have hlen2 : (midB ++ name).length ≤ fuel := by
              simp at hlen' ⊢
              omega
            simp only [List.cons_append, List.tail_cons]
            by_cases h3 : out.length > dotdot
            · -- backtracking
              rw [if_pos h3]
              cases out with
              | nil => simp at h3
              | cons o below =>
                simp only
                apply ih midB _ dotdot (Or.inr hlast2) hlen2 _
                intro hr
                obtain ⟨hl, hd⟩ := hinv hr
                have hb : dotdot ≤ below.length := by
                  simp at h3
                  omega
                have hbne : below ≠ [] := by
                  intro e
                  subst e
                  simp at hb
                  omega
                refine ⟨?_, hd⟩
                rw [cleanBacktrack_getLast? dotdot hd below o hb,
                  ← getLast?_cons_of_ne_nil o below hbne]
                exact hl
            · rw [if_neg h3]
              by_cases h4 : rooted = false
              · -- not rooted: the ".." is appended
                rw [if_pos h4]
                apply ih midB _ _ (Or.inr hlast2) hlen2 _
                intro hr
                rw [hr] at h4
                exact absurd h4 (by decide)
              · -- rooted, at the root: the ".." is dropped
                rw [if_neg h4]
                exact ih midB _ _ (Or.inr hlast2) hlen2 hinv
        · -- real element
          rw [if_neg h2]
          obtain ⟨l', hl1, hl2, hl3⟩ := dropWhile_to_slash name mid' hlast'
          have hdw : (m :: (mid' ++ name)).dropWhile (fun x => x != '/') = l' ++ name := by
            simp [List.dropWhile_cons, hm, hl1]
          rw [hdw]
          have hlen2 : (l' ++ name).length ≤ fuel := by
            simp at hlen' ⊢
            omega
          apply ih l' _ dotdot (Or.inr hl2) hlen2 _
          intro hr
          obtain ⟨hl, hd⟩ := hinv hr
          refine ⟨?_, hd⟩
          have happ : ∀ pre : List Char, (pre ++ out).getLast? = some '/' := by
            intro pre
            obtain ⟨ys, hys⟩ := List.getLast?_eq_some_iff.mp hl
            rw [hys, ← List.append_assoc]
            exact List.getLast?_concat _
          split_ifs
          · have := happ ((List.takeWhile (fun x => x != '/') (m :: (mid' ++ name))).reverse ++ ['/'])
            simpa using this
          · exact happ _

theorem Clean_keeps_last (mid name : List Char) (hn : NormalElem name)
    (hmid : mid = [] ∨ mid.getLast? = some '/') :
    ∃ pre, Clean (mid ++ name) = pre.reverse ++ name ∧ (pre = [] ∨ pre.head? = some '/') := by
  have hne : name ≠ [] := hn.1
  have hns : '/' ∉ name := hn.2.1
  have hpath : mid ++ name ≠ [] := by simp [hne]
  unfold Clean
  rw [if_neg hpath]
  cases mid with
  | nil =>
    cases hname : name with
    | nil => exact absurd hname hne
    | cons c t =>
      have hc : c ≠ '/' := by
        intro e
        apply hns
        simp [hname, e]
      obtain ⟨pre, h1, h2⟩ := cleanLoop_keeps_last false name hn (name.length) [] [] 0
        (Or.inl rfl) (by simp) (by simp)
      simp only [List.nil_append] at h1
      rw [hname] at h1
      have hname' : (c :: t).reverse = name.reverse := by rw [hname]
      simp only [List.nil_append, List.head?_cons, Option.some.injEq, hc, decide_False,
        Bool.false_eq_true, if_false, h1]
      refine ⟨pre, ?_, h2⟩
      have : (c :: t).reverse ++ pre ≠ [] := by simp
      rw [if_neg this]
      simp
  | cons m mid' =>
    have hlast : (m :: mid').getLast? = some '/' := by
      rcases hmid with h | h
      · exact absurd h (by simp)
      · exact h
    by_cases hm : m = '/'
    · have hmid' : mid' = [] ∨ mid'.getLast? = some '/' := by
        cases mid' with
        | nil => left; rfl
        | cons b u => right; simpa using hlast
      obtain ⟨pre, h1, h2⟩ := cleanLoop_keeps_last true name hn ((m :: mid') ++ name).length
        mid' ['/'] 1 hmid' (by simp) (by simp)
      simp only [List.cons_append, List.head?_cons, hm, decide_True, if_true, List.tail_cons]
      simp only [List.cons_append, hm] at h1
      rw [h1]
      refine ⟨pre, ?_, h2⟩
      have : name.reverse ++ pre ≠ [] := by simp [hne]
      rw [if_neg this]
      simp
    · obtain ⟨pre, h1, h2⟩ := cleanLoop_keeps_last false name hn ((m :: mid') ++ name).length
        (m :: mid') [] 0 (Or.inr hlast) (le_refl _) (by simp)
      simp only [List.cons_append, List.head?_cons, Option.some.injEq, hm, decide_False,
        Bool.false_eq_true, if_false]
      simp only [List.cons_append] at h1
      rw [h1]
      refine ⟨pre, ?_, h2⟩
      have : name.reverse ++ pre ≠ [] := by simp [hne]
      rw [if_neg this]
      simp

theorem Base_Join_elem (dir name : List Char) (hn : NormalElem name) :
    Base (Join [dir, name]) = name := by
  have hne : name ≠ [] := hn.1
  have key : ∀ mid : List Char, (mid = [] ∨ mid.getLast? = some '/') →
      Base (Clean (mid ++ name)) = name := by
    intro mid hmid
    obtain ⟨pre, h1, h2⟩ := Clean_keeps_last mid name hn hmid
    rw [h1]
    exact Base_append_elem pre name hne hn.2.1 h2
  cases dir with
  | nil =>
    cases hname : name with
    | nil => exact absurd hname hne
    | cons c t =>
      have := key [] (Or.inl rfl)
      simp only [List.nil_append, hname] at this
      simpa [Join, List.intercalate] using this
  | cons d ds =>
    have := key ((d :: ds) ++ ['/']) (Or.inr (List.getLast?_concat _))
    simpa [Join, List.intercalate] using this

theorem Base_shape (path : GoString) :
    Base path = ['/'] ∨ (Base path ≠ [] ∧ '/' ∉ Base path) := by
  unfold Base
  by_cases hp : path = []
  · right
    simp [hp]
  · simp only [hp, if_false]
    split_ifs with h
    · left; rfl
    · right
      refine ⟨h, ?_⟩
      intro hmem
      rw [List.mem_reverse] at hmem
      have := List.mem_takeWhile_imp hmem
      simp at this

theorem TrimSuffix_append (s suffix : GoString) : TrimSuffix (s ++ suffix) suffix = s := by
  unfold TrimSuffix HasSuffix
  simp

theorem bundle_file_name_normal (repoName : GoString) (h1 : '/' ∉ repoName) :
    NormalElem (repoName ++ bundleSuffix) := by
  refine ⟨?_, ?_, ?_, ?_⟩
  · simp [bundleSuffix]
  · intro h
    rw [List.mem_append] at h
    rcases h with h | h
    · exact h1 h
    · revert h
      decide
  · intro h
    have := congrArg List.length h
    simp [bundleSuffix] at this
  · intro h
    have := congrArg List.length h
    simp [bundleSuffix] at this

theorem roundtrip_core (outputDir gitDir : GoString) (h : repoNameOf gitDir ≠ ['/']) :
    bundleNameOf (bundlePathOf outputDir gitDir) = repoNameOf gitDir := by
  have hshape := Base_shape (Dir gitDir)
  unfold repoNameOf at h ⊢
  rcases hshape with h0 | ⟨_, h2⟩
  · exact absurd h0 h
  · unfold bundleNameOf bundlePathOf repoNameOf
    rw [Base_Join_elem outputDir _ (bundle_file_name_normal _ h2)]
    exact TrimSuffix_append _ _

/-- C10, as amended. Name round trip between backup and restore: for every git directory
path whose derived repository name is not the root path, the name restore derives from the
bundle path that bundleWorker computes equals that repository name, for every output
directory. -/
theorem C10_name_round_trip (outputDir gitDir : GoString)
    (hroot : Base (Dir gitDir) ≠ ['/']) :
    TrimSuffix (Base (Join [outputDir, Base (Dir gitDir) ++ bundleSuffix])) bundleSuffix =
      Base (Dir gitDir) :=
  roundtrip_core outputDir gitDir hroot

/-- C10, witness: the repository /home/u/git/proj bundled into /tmp. -/
theorem C10_name_round_trip_witness :
    TrimSuffix (Base (Join ["/tmp".data,
        Base (Dir "/home/u/git/proj/.git".data) ++ bundleSuffix])) bundleSuffix =
      Base (Dir "/home/u/git/proj/.git".data) :=
  C10_name_round_trip "/tmp".data "/home/u/git/proj/.git".data (by decide)

/-- C10, counterexample: for the git directory /x.git, found directly under the root, the
repository name is the root path, the bundle path is /tmp/.bundle, and restore derives
the empty name from it. -/
theorem C10_root_name_lost :
    repoNameOf "/x.git".data = "/".data ∧
      bundlePathOf "/tmp".data "/x.git".data = "/tmp/.bundle".data ∧
      bundleNameOf (bundlePathOf "/tmp".data "/x.git".data) = [] ∧
      TrimSuffix (Base (Join ["/tmp".data, Base (Dir "/x.git".data) ++ bundleSuffix]))
        bundleSuffix ≠ Base (Dir "/x.git".data) := by
  decide

/-! Section: The backup pool: invariant, progress, and the claims about backup -/

theorem set_decomp {α : Type} (l : List α) (i : Nat) (w : α) (h : l.get? i = some w) :
    ∃ l1 l2, l = l1 ++ w :: l2 ∧ ∀ w', l.set i w' = l1 ++ w' :: l2 := by
  induction l generalizing i with
  | nil => simp at h
  | cons a t ih =>
    cases i with
    | zero =>
      simp at h
      subst h
      exact ⟨[], t, rfl, fun _ => rfl⟩
    | succ k =>
      have h' : t.get? k = some w := h
      obtain ⟨l1, l2, h1, h2⟩ := ih k h'
      refine ⟨a :: l1, l2, by simp [h1], fun w' => by simp [h2]⟩

theorem Inv_intro {cfg : Config} {gitDirs : List GoString} {s : Pool}
    (place : ∀ j : Job, s.toSend.count j + s.jobs.count j +
      (s.workers.filterMap Worker.inExec).count j +
      (s.workers.filterMap Worker.inAddFailed).count j +
      (s.workers.filterMap Worker.inIncrement).count j +
      (incrementedJobs s.trace).count j = (jobsOf gitDirs).count j)
    (failed : ∀ j : Job, (failedJobs s.trace).count j =
      (s.workers.filterMap Worker.inAddFailed).count j + (addedJobs s.trace).count j)
    (bundled : ∀ j : Job, (bundledJobs s.trace).count j =
      (s.workers.filterMap Worker.inAddFailed).count j +
      (s.workers.filterMap Worker.inIncrement).count j + (incrementedJobs s.trace).count j)
    (sizes : s.toSend.length + s.jobs.length + (s.workers.filterMap Worker.inExec).length +
      (s.workers.filterMap Worker.inAddFailed).length +
      (s.workers.filterMap Worker.inIncrement).length +
      (incrementedJobs s.trace).length = gitDirs.length)
    (added_le : (addedJobs s.trace).length ≤
      (s.workers.filterMap Worker.inIncrement).length + (incrementedJobs s.trace).length)
    (total : s.progress.Total = gitDirs.length)
    (current : s.progress.Current = (incrementedJobs s.trace).length)
    (nfailed : s.progress.Failed = (addedJobs s.trace).length)
    (names : s.progress.FailedRepos = (addedJobs s.trace).map (fun j => repoNameOf j.gitDir))
    (closed_send : s.closed = true → s.toSend = [])
    (exited_closed : Worker.exited ∈ s.workers → s.closed = true ∧ s.jobs = [])
    (joined_done : s.joined = true →
      (∀ w ∈ s.workers, w = Worker.exited) ∧ cfg.MaxJobs ≤ s.workers.length ∧ s.closed = true)
    (spawned : (s.workers.length : Int) ≤ max cfg.MaxJobs 0) :
    Inv cfg gitDirs s :=
  ⟨place, failed, bundled, sizes, added_le, total, current, nfailed, names, closed_send, exited_closed, joined_done, spawned⟩

theorem Inv_start (cfg : Config) (gitDirs : List GoString) :
    Inv cfg gitDirs (Pool.start gitDirs) := by
  constructor <;> simp [Pool.start, incrementedJobs, addedJobs, failedJobs, bundledJobs, jobsOf]

theorem Inv_backupMain (cfg : Config) (gitDirs : List GoString) (s : Pool)
    (h : Inv cfg gitDirs s) : Inv cfg gitDirs (backupMain cfg s) := by
  obtain ⟨toSend, jobs, closed, workers, joined, progress, trace⟩ := s
  obtain ⟨h1, h2, h3, h4, h5, h6, h7, h8, h9, h10, h11, h12, h13⟩ := h
  simp only at h1 h2 h3 h4 h5 h6 h7 h8 h9 h10 h11 h12 h13
  unfold backupMain
  simp only
  rcases Classical.em (joined = true) with hj | hj
  · rw [if_pos hj]
    exact ⟨h1, h2, h3, h4, h5, h6, h7, h8, h9, h10, h11, h12, h13⟩
  rw [if_neg hj]
  rcases Classical.em ((workers.length : Int) < cfg.MaxJobs) with hs | hs
  · rw [if_pos hs]
    apply Inv_intro
    case exited_closed =>
      intro hm
      simp at hm
      exact h11 hm
    case joined_done =>
      intro hm
      exact absurd hm hj
    case spawned =>
      show (((workers ++ [Worker.recv]).length : Nat) : Int) ≤ max cfg.MaxJobs 0
      rw [List.length_append, List.length_singleton]
      omega
    all_goals
      simp only [List.filterMap_append, List.filterMap_cons, List.filterMap_nil,
        Worker.inExec, Worker.inAddFailed, Worker.inIncrement, List.append_nil]
      assumption
  rw [if_neg hs]
  cases toSend with
  | cons job rest =>
    apply Inv_intro
    case place =>
      intro j
      have := h1 j
      simp only [List.count_append, List.count_cons, List.count_nil] at this ⊢
      omega
    case sizes =>
      simp only [List.length_append, List.length_cons, List.length_nil] at h4 ⊢
      omega
    case closed_send =>
      intro hc
      have := h10 hc
      simp at this
    case exited_closed =>
      intro hm
      have := (h11 hm).1
      have := h10 this
      simp at this
    case joined_done =>
      intro hm
      exact absurd hm hj
    all_goals assumption
  | nil =>
    simp only
    rcases Classical.em (closed = false) with hc | hc
    · rw [if_pos hc]
      apply Inv_intro
      case closed_send =>
        intro _; rfl
      case exited_closed =>
        intro hm
        have := (h11 hm).1
        rw [hc] at this
        exact absurd this (by decide)
      case joined_done =>
        intro hm
        exact absurd hm hj
      all_goals assumption
    · rw [if_neg hc]
      rcases Classical.em ((workers.all fun w => decide (w = Worker.exited)) = true)
        with hall | hall
      · rw [if_pos hall]
        apply Inv_intro
        case joined_done =>
          intro _
          refine ⟨?_, ?_, ?_⟩
          · intro w hw
            have := List.all_eq_true.mp hall w hw
            simpa using this
          · show cfg.MaxJobs ≤ ((workers.length : Nat) : Int)
            omega
          · simpa using hc
        all_goals assumption
      · rw [if_neg hall]
        exact ⟨h1, h2, h3, h4, h5, h6, h7, h8, h9, h10, h11, h12, h13⟩

theorem Inv_bundleWorker (cfg : Config) (gitDirs : List GoString) (s : Pool) (i : Nat)
    (err : Bool) (h : Inv cfg gitDirs s) : Inv cfg gitDirs (bundleWorker i err s) := by
  obtain ⟨toSend, jobs, closed, workers, joined, progress, trace⟩ := s
  obtain ⟨h1, h2, h3, h4, h5, h6, h7, h8, h9, h10, h11, h12, h13⟩ := h
  simp only at h1 h2 h3 h4 h5 h6 h7 h8 h9 h10 h11 h12 h13
  unfold bundleWorker
  simp only
  cases hw : workers.get? i with
  | none => exact ⟨h1, h2, h3, h4, h5, h6, h7, h8, h9, h10, h11, h12, h13⟩
  | some w =>
    obtain ⟨l1, l2, hdec, hset⟩ := set_decomp workers i w hw
    subst hdec
    cases w with
    | exited => exact ⟨h1, h2, h3, h4, h5, h6, h7, h8, h9, h10, h11, h12, h13⟩
    | recv =>
      simp only
      cases jobs with
      | nil =>
        simp only
        rcases Classical.em (closed = true) with hc | hc
        · rw [if_pos hc, hset]
          apply Inv_intro
          case exited_closed =>
            intro _
            exact ⟨hc, rfl⟩
          case joined_done =>
            intro hm
            have := h12 hm
            refine ⟨?_, ?_, this.2.2⟩
            · intro w hw
              simp only [List.mem_append, List.mem_cons] at hw ⊢
              rcases hw with hw | hw | hw
              · exact this.1 w (by simp [hw])
              · exact hw
              · exact this.1 w (by simp [hw])
            · simpa using this.2.1
          case spawned =>
            simpa using h13
          all_goals
            simp only [List.filterMap_append, List.filterMap_cons, List.filterMap_nil,
              Worker.inExec, Worker.inAddFailed, Worker.inIncrement, List.append_nil] at *
            assumption
        · rw [if_neg hc]
          exact ⟨h1, h2, h3, h4, h5, h6, h7, h8, h9, h10, h11, h12, h13⟩
      | cons job rest =>
        simp only
        rw [hset]
        apply Inv_intro
        case place =>
          intro j
          have := h1 j
          simp only [List.filterMap_append, List.filterMap_cons, List.filterMap_nil,
            Worker.inExec, Worker.inAddFailed, Worker.inIncrement, List.count_append,
            List.count_cons, List.count_nil] at this ⊢
          omega
        case sizes =>
          simp only [List.filterMap_append, List.filterMap_cons, List.filterMap_nil,
            Worker.inExec, Worker.inAddFailed, Worker.inIncrement, List.length_append,
            List.length_cons, List.length_nil] at h4 ⊢
          omega
        case exited_closed =>
          intro hm
          have hm' : Worker.exited ∈ l1 ++ Worker.recv :: l2 := by
            simp only [List.mem_append, List.mem_cons] at hm ⊢
            rcases hm with hm | hm | hm
            · exact Or.inl hm
            · cases hm
            · exact Or.inr (Or.inr hm)
          have := (h11 hm').2
          cases this
        case joined_done =>
          intro hm
          have := (h12 hm).1 Worker.recv (by simp)
          cases this
        case spawned =>
          simpa using h13
        all_goals
          simp only [List.filterMap_append, List.filterMap_cons, List.filterMap_nil,
            Worker.inExec, Worker.inAddFailed, Worker.inIncrement, List.append_nil] at *
          assumption
    | exec job =>
      simp only
      rw [hset]
      apply Inv_intro
      case exited_closed =>
        intro hm
        apply h11
        simp only [List.mem_append, List.mem_cons] at hm ⊢
        rcases hm with hm | hm | hm
        · exact Or.inl hm
        · cases err <;> cases hm
        · exact Or.inr (Or.inr hm)
      case joined_done =>
        intro hm
        have := (h12 hm).1 (Worker.exec job) (by simp)
        cases this
      case spawned =>
        simpa using h13
      case closed_send => exact h10
      all_goals
        cases err
      all_goals
        (try intro j)
        (try have q1 := h1 j)
        (try have q2 := h2 j)
        (try have q3 := h3 j)
        simp only [List.filterMap_append, List.filterMap_cons, List.filterMap_nil,
          Worker.inExec, Worker.inAddFailed, Worker.inIncrement, List.count_append,
          List.count_cons, List.count_nil, List.length_append, List.length_cons,
          List.length_nil, failedJobs, okJobs, bundledJobs, addedJobs, incrementedJobs,
          Event.failedJob, Event.okJob, Event.bundledJob, Event.addedJob, Event.incrementedJob,
          List.append_nil, if_true, if_false, Bool.false_eq_true] at *
        first
          | assumption
          | omega
    | addFailed job =>
      simp only
      rw [hset]
      apply Inv_intro
      case exited_closed =>
        intro hm
        apply h11
        simp only [List.mem_append, List.mem_cons] at hm ⊢
        rcases hm with hm | hm | hm
        · exact Or.inl hm
        · cases hm
        · exact Or.inr (Or.inr hm)
      case joined_done =>
        intro hm
        have := (h12 hm).1 (Worker.addFailed job) (by simp)
        cases this
      case spawned =>
        simpa using h13
      case closed_send => exact h10
      all_goals
        (try intro j)
        (try have q1 := h1 j)
        (try have q2 := h2 j)
        (try have q3 := h3 j)
        simp only [List.filterMap_append, List.filterMap_cons, List.filterMap_nil,
          Worker.inExec, Worker.inAddFailed, Worker.inIncrement, List.count_append,
          List.count_cons, List.count_nil, List.length_append, List.length_cons,
          List.length_nil, failedJobs, okJobs, bundledJobs, addedJobs, incrementedJobs,
          Event.failedJob, Event.okJob, Event.bundledJob, Event.addedJob, Event.incrementedJob,
          List.append_nil, if_true, if_false, Bool.false_eq_true, Progress.AddFailed,
          Progress.Increment, List.map_append, List.map_cons, List.map_nil, Nat.cast_add,
          Nat.cast_one] at *
        first
          | assumption
          | omega
          | simp [*]
    | increment job =>
      simp only
      rw [hset]
      apply Inv_intro
      case exited_closed =>
        intro hm
        apply h11
        simp only [List.mem_append, List.mem_cons] at hm ⊢
        rcases hm with hm | hm | hm
        · exact Or.inl hm
        · cases hm
        · exact Or.inr (Or.inr hm)
      case joined_done =>
        intro hm
        have := (h12 hm).1 (Worker.increment job) (by simp)
        cases this
      case spawned =>
        simpa using h13
      case closed_send => exact h10
      all_goals
        (try intro j)
        (try have q1 := h1 j)
        (try have q2 := h2 j)
        (try have q3 := h3 j)
        simp only [List.filterMap_append, List.filterMap_cons, List.filterMap_nil,
          Worker.inExec, Worker.inAddFailed, Worker.inIncrement, List.count_append,
          List.count_cons, List.count_nil, List.length_append, List.length_cons,
          List.length_nil, failedJobs, okJobs, bundledJobs, addedJobs, incrementedJobs,
          Event.failedJob, Event.okJob, Event.bundledJob, Event.addedJob, Event.incrementedJob,
          List.append_nil, if_true, if_false, Bool.false_eq_true, Progress.AddFailed,
          Progress.Increment, List.map_append, List.map_cons, List.map_nil, Nat.cast_add,
          Nat.cast_one] at *
        first
          | assumption
          | omega

theorem Inv_step (cfg : Config) (gitDirs : List GoString) (s : Pool) (t : Sched)
    (h : Inv cfg gitDirs s) : Inv cfg gitDirs (step cfg s t) := by
  cases t with
  | main => exact Inv_backupMain cfg gitDirs s h
  | worker i err => exact Inv_bundleWorker cfg gitDirs s i err h

theorem Inv_run (cfg : Config) (gitDirs : List GoString) (sched : List Sched) :
    ∀ s : Pool, Inv cfg gitDirs s → Inv cfg gitDirs (run cfg sched s) := by
  induction sched with
  | nil => intro s h; exact h
  | cons t ts ih =>
    intro s h
    exact ih (step cfg s t) (Inv_step cfg gitDirs s t h)

theorem run_append (cfg : Config) (a b : List Sched) (s : Pool) :
    run cfg (a ++ b) s = run cfg b (run cfg a s) := by
  simp [run, List.foldl_append]

theorem exists_progress (cfg : Config) (s : Pool) (h : s.joined = false) :
    ∃ t, (step cfg s t).measure cfg < s.measure cfg := by
  obtain ⟨toSend, jobs, closed, workers, joined, progress, trace⟩ := s
  simp only at h
  subst h
  rcases Classical.em ((workers.length : Int) < cfg.MaxJobs) with hs | hs
  · refine ⟨Sched.main, ?_⟩
    simp only [step, backupMain, Bool.false_eq_true, if_false, if_pos hs, Pool.measure,
      List.length_append, List.length_singleton, List.map_append, List.sum_append,
      List.map_cons, List.map_nil, List.sum_cons, List.sum_nil, Worker.weight, Nat.cast_add,
      Nat.cast_one]
    omega
  cases toSend with
  | cons job rest =>
    refine ⟨Sched.main, ?_⟩
    simp [step, backupMain, if_neg hs, Pool.measure]
    omega
  | nil =>
    cases closed with
    | false =>
      refine ⟨Sched.main, ?_⟩
      simp [step, backupMain, if_neg hs, Pool.measure]
    | true =>
      rcases Classical.em ((workers.all fun w => decide (w = Worker.exited)) = true)
        with hall | hall
      · refine ⟨Sched.main, ?_⟩
        simp only [step, backupMain, Bool.false_eq_true, if_false, if_neg hs, if_pos hall]
        simp [Pool.measure]
      · have : ∃ w ∈ workers, w ≠ Worker.exited := by
          by_contra hcon
          apply hall
          rw [List.all_eq_true]
          intro w hw
          by_contra hne
          apply hcon
          exact ⟨w, hw, by simpa using hne⟩
        obtain ⟨w, hw, hne⟩ := this
        obtain ⟨i, hi⟩ := List.mem_iff_get?.mp hw
        obtain ⟨l1, l2, hdec, hset⟩ := set_decomp workers i w hi
        refine ⟨Sched.worker i false, ?_⟩
        simp only [step, bundleWorker, hi]
        cases w with
        | exited => exact absurd rfl hne
        | recv =>
          cases jobs with
          | nil =>
            simp only [if_true, hset, Pool.measure]
            rw [hdec]
            simp only [List.length_append, List.length_cons, List.map_append, List.sum_append,
              List.map_cons, List.sum_cons, Worker.weight]
            omega
          | cons job rest =>
            simp only [hset, Pool.measure]
            rw [hdec]
            simp only [List.length_append, List.length_cons, List.map_append, List.sum_append,
              List.map_cons, List.sum_cons, Worker.weight]
            omega
        | exec job =>
          simp only [hset, Pool.measure]
          rw [hdec]
          simp only [List.length_append, List.length_cons, List.map_append, List.sum_append,
            List.map_cons, List.sum_cons, Worker.weight, Bool.false_eq_true, if_false]
          omega
        | addFailed job =>
          simp only [hset, Pool.measure]
          rw [hdec]
          simp only [List.length_append, List.length_cons, List.map_append, List.sum_append,
            List.map_cons, List.sum_cons, Worker.weight]
          omega
        | increment job =>
          simp only [hset, Pool.measure]
          rw [hdec]
          simp only [List.length_append, List.length_cons, List.map_append, List.sum_append,
            List.map_cons, List.sum_cons, Worker.weight]
          omega

theorem run_completes (cfg : Config) :
    ∀ (n : Nat) (s : Pool), s.measure cfg ≤ n → ∃ more, (run cfg more s).joined = true := by
  intro n
  induction n with
  | zero =>
    intro s hs
    cases hj : s.joined with
    | true => exact ⟨[], hj⟩
    | false =>
      simp [Pool.measure, hj] at hs
  | succ n ih =>
    intro s hs
    cases hj : s.joined with
    | true => exact ⟨[], hj⟩
    | false =>
      obtain ⟨t, ht⟩ := exists_progress cfg s hj
      obtain ⟨more, hmore⟩ := ih (step cfg s t) (by omega)
      exact ⟨t :: more, hmore⟩

/-- Every step either leaves the state unchanged (the thread is blocked or finished) or
lowers the measure, so a run has at most `measure` many effective steps. -/
theorem step_same_or_less (cfg : Config) (s : Pool) (t : Sched) :
    step cfg s t = s ∨ (step cfg s t).measure cfg < s.measure cfg := by
  obtain ⟨toSend, jobs, closed, workers, joined, progress, trace⟩ := s
  cases t with
  | main =>
    cases joined with
    | true => left; simp [step, backupMain]
    | false =>
      rcases Classical.em ((workers.length : Int) < cfg.MaxJobs) with hs | hs
      · right
        simp only [step, backupMain, Bool.false_eq_true, if_false, if_pos hs, Pool.measure,
          List.length_append, List.length_singleton, List.map_append, List.sum_append,
          List.map_cons, List.map_nil, List.sum_cons, List.sum_nil, Worker.weight,
          Nat.cast_add, Nat.cast_one]
        omega
      cases toSend with
      | cons job rest =>
        right
        simp [step, backupMain, if_neg hs, Pool.measure]
        omega
      | nil =>
        cases closed with
        | false =>
          right
          simp [step, backupMain, if_neg hs, Pool.measure]
        | true =>
          rcases Classical.em ((workers.all fun w => decide (w = Worker.exited)) = true)
            with hall | hall
          · right
            simp only [step, backupMain, Bool.false_eq_true, if_false, if_neg hs, if_pos hall]
            simp [Pool.measure]
          · left
            simp only [step, backupMain, Bool.false_eq_true, if_false, if_neg hs, if_neg hall]
            simp
  | worker i err =>
    simp only [step, bundleWorker]
    cases hi : workers.get? i with
    | none => left; rfl
    | some w =>
      obtain ⟨l1, l2, hdec, hset⟩ := set_decomp workers i w hi
      cases w with
      | exited => left; rfl
      | recv =>
        cases jobs with
        | nil =>
          cases closed with
          | false => left; rfl
          | true =>
            right
            simp only [if_true, hset, Pool.measure]
            rw [hdec]
            simp only [List.length_append, List.length_cons, List.map_append, List.sum_append,
              List.map_cons, List.sum_cons, Worker.weight]
            omega
        | cons job rest =>
          right
          simp only [hset, Pool.measure]
          rw [hdec]
          simp only [List.length_append, List.length_cons, List.map_append, List.sum_append,
            List.map_cons, List.sum_cons, Worker.weight]
          omega
      | exec job =>
        right
        simp only [hset, Pool.measure]
        rw [hdec]
        cases err <;>
          simp only [List.length_append, List.length_cons, List.map_append, List.sum_append,
            List.map_cons, List.sum_cons, Worker.weight, Bool.false_eq_true, if_false,
            if_true] <;>
          omega
      | addFailed job =>
        right
        simp only [hset, Pool.measure]
        rw [hdec]
        simp only [List.length_append, List.length_cons, List.map_append, List.sum_append,
          List.map_cons, List.sum_cons, Worker.weight]
        omega
      | increment job =>
        right
        simp only [hset, Pool.measure]
        rw [hdec]
        simp only [List.length_append, List.length_cons, List.map_append, List.sum_append,
          List.map_cons, List.sum_cons, Worker.weight]
        omega

theorem exited_filterMap (f : Worker → Option Job) (hf : f Worker.exited = none)
    (ws : List Worker) (h : ∀ w ∈ ws, w = Worker.exited) : ws.filterMap f = [] := by
  induction ws with
  | nil => rfl
  | cons a t ih =>
    have ha : a = Worker.exited := h a (by simp)
    subst ha
    rw [List.filterMap_cons, hf]
    exact ih (fun w hw => h w (by simp [hw]))

theorem trace_split (tr : List Event) :
    (failedJobs tr ++ okJobs tr).Perm (bundledJobs tr) := by
  induction tr with
  | nil => exact List.Perm.refl _
  | cons e t ih =>
    cases e with
    | bundle job err =>
      cases err with
      | true =>
        simpa [failedJobs, okJobs, bundledJobs, Event.failedJob, Event.okJob,
          Event.bundledJob] using ih
      | false =>
        have : (failedJobs t ++ job :: okJobs t).Perm (job :: bundledJobs t) :=
          List.perm_middle.trans (List.Perm.cons job ih)
        simpa [failedJobs, okJobs, bundledJobs, Event.failedJob, Event.okJob,
          Event.bundledJob] using this
    | addFailed job =>
      simpa [failedJobs, okJobs, bundledJobs, Event.failedJob, Event.okJob,
        Event.bundledJob] using ih
    | increment job =>
      simpa [failedJobs, okJobs, bundledJobs, Event.failedJob, Event.okJob,
        Event.bundledJob] using ih

theorem backup_pool (cfg : Config) (gitDirs : List GoString) (sched : List Sched) :
    (gitDirs = [] ∧ (backup cfg true (some gitDirs) sched).pool = Pool.start gitDirs ∧
        (backup cfg true (some gitDirs) sched).ret = Return.returned none ∧
        (backup cfg true (some gitDirs) sched).summary = none) ∨
    (gitDirs ≠ [] ∧
        (backup cfg true (some gitDirs) sched).pool = run cfg sched (Pool.start gitDirs) ∧
        (run cfg sched (Pool.start gitDirs)).joined = true ∧
        (backup cfg true (some gitDirs) sched).ret = Return.returned none ∧
        (backup cfg true (some gitDirs) sched).summary =
          some (summarize cfg (run cfg sched (Pool.start gitDirs)).progress)) ∨
    (gitDirs ≠ [] ∧
        (backup cfg true (some gitDirs) sched).pool = run cfg sched (Pool.start gitDirs) ∧
        (run cfg sched (Pool.start gitDirs)).joined = false ∧
        (backup cfg true (some gitDirs) sched).ret = Return.running ∧
        (backup cfg true (some gitDirs) sched).summary = none) := by
  cases gitDirs with
  | nil =>
    left
    exact ⟨rfl, rfl, rfl, rfl⟩
  | cons d ds =>
    right
    have hT : ¬ (Pool.start (d :: ds)).progress.Total = 0 := by
      simp [Pool.start]
      omega
    cases hj : (run cfg sched (Pool.start (d :: ds))).joined with
    | true =>
      left
      simp [backup, hT, hj]
    | false =>
      right
      simp [backup, hT, hj]

theorem backup_Inv (cfg : Config) (gitDirs : List GoString) (sched : List Sched) :
    Inv cfg gitDirs (backup cfg true (some gitDirs) sched).pool := by
  rcases backup_pool cfg gitDirs sched with h | h | h
  · rw [h.2.1]
    exact Inv_start cfg gitDirs
  · rw [h.2.1]
    exact Inv_run cfg gitDirs sched _ (Inv_start cfg gitDirs)
  · rw [h.2.1]
    exact Inv_run cfg gitDirs sched _ (Inv_start cfg gitDirs)

/-- Shape of the pool once backup has returned without error with at least one worker
configured: nothing is left to send, the channel is empty and no worker holds a job. -/
theorem backup_final (cfg : Config) (gitDirs : List GoString) (sched : List Sched)
    (hW : 1 ≤ cfg.MaxJobs)
    (hret : (backup cfg true (some gitDirs) sched).ret = Return.returned none) :
    (backup cfg true (some gitDirs) sched).pool.toSend = [] ∧
      (backup cfg true (some gitDirs) sched).pool.jobs = [] ∧
      (backup cfg true (some gitDirs) sched).pool.workers.filterMap Worker.inExec = [] ∧
      (backup cfg true (some gitDirs) sched).pool.workers.filterMap Worker.inAddFailed = [] ∧
      (backup cfg true (some gitDirs) sched).pool.workers.filterMap Worker.inIncrement = [] := by
  have hinv := backup_Inv cfg gitDirs sched
  rcases backup_pool cfg gitDirs sched with h | h | h
  · obtain ⟨h1, h2, _, _⟩ := h
    rw [h2, h1]
    exact ⟨rfl, rfl, rfl, rfl, rfl⟩
  · obtain ⟨_, h2, h3, _, _⟩ := h
    rw [h2] at hinv ⊢
    obtain ⟨hall, hlen, hclosed⟩ := hinv.joined_done h3
    have hne : (run cfg sched (Pool.start gitDirs)).workers ≠ [] := by
      intro e
      rw [e] at hlen
      simp at hlen
      omega
    obtain ⟨w, hw⟩ := List.exists_mem_of_ne_nil _ hne
    have hex : Worker.exited ∈ (run cfg sched (Pool.start gitDirs)).workers := by
      have := hall w hw
      rw [this] at hw
      exact hw
    exact ⟨hinv.closed_send hclosed, (hinv.exited_closed hex).2,
      exited_filterMap _ rfl _ hall, exited_filterMap _ rfl _ hall,
      exited_filterMap _ rfl _ hall⟩
  · rw [h.2.2.2.1] at hret
    cases hret

theorem backup_completes (cfg : Config) (gitDirs : List GoString) (sched : List Sched) :
    ∃ more, (backup cfg true (some gitDirs) (sched ++ more)).ret = Return.returned none := by
  obtain ⟨more, hmore⟩ := run_completes cfg _ (run cfg sched (Pool.start gitDirs)) (le_refl _)
  refine ⟨more, ?_⟩
  rcases backup_pool cfg gitDirs (sched ++ more) with h | h | h
  · exact h.2.2.1
  · exact h.2.2.2.1
  · have := h.2.2.1
    rw [run_append, hmore] at this
    cases this

/-- Facts at the join used by the accounting claims. -/
theorem backup_join_perms (cfg : Config) (gitDirs : List GoString) (sched : List Sched)
    (hW : 1 ≤ cfg.MaxJobs)
    (hret : (backup cfg true (some gitDirs) sched).ret = Return.returned none) :
    (incrementedJobs (backup cfg true (some gitDirs) sched).pool.trace).Perm (jobsOf gitDirs) ∧
      (bundledJobs (backup cfg true (some gitDirs) sched).pool.trace).Perm (jobsOf gitDirs) ∧
      (addedJobs (backup cfg true (some gitDirs) sched).pool.trace).Perm
        (failedJobs (backup cfg true (some gitDirs) sched).pool.trace) := by
  have hinv := backup_Inv cfg gitDirs sched
  obtain ⟨f1, f2, f3, f4, f5⟩ := backup_final cfg gitDirs sched hW hret
  have hplace := hinv.place
  have hfailed := hinv.failed
  have hbundled := hinv.bundled
  rw [f1, f2, f3, f4, f5] at hplace
  rw [f4] at hfailed
  rw [f4, f5] at hbundled
  simp only [List.count_nil, Nat.zero_add] at hplace hfailed hbundled
  refine ⟨List.perm_iff_count.mpr hplace, List.perm_iff_count.mpr ?_,
    List.perm_iff_count.mpr ?_⟩
  · intro j
    rw [hbundled j, hplace j]
  · intro j
    rw [hfailed j]

/-- C1. Backup accounting: with at least one worker configured, whenever backup has
returned (for any schedule of the main routine and the workers and any outcome of each
bundle command) Current equals Total equals the number of discovered directories, Failed
is the number of failed commands, Total minus Failed is the number of successful
commands, every job ran its command exactly once and passed through Increment exactly
once. Backup does return: every run can be continued until it returns, before the join
some thread can always move, and every step that changes the state lowers a bounded
measure. -/
theorem C1_backup_accounting (cfg : Config) (gitDirs : List GoString)
    (hW : 1 ≤ cfg.MaxJobs) :
    (∀ sched : List Sched,
      (backup cfg true (some gitDirs) sched).ret = Return.returned none →
        (backup cfg true (some gitDirs) sched).pool.progress.Current = gitDirs.length ∧
        (backup cfg true (some gitDirs) sched).pool.progress.Total = gitDirs.length ∧
        (backup cfg true (some gitDirs) sched).pool.progress.Failed =
          (failedJobs (backup cfg true (some gitDirs) sched).pool.trace).length ∧
        (summarize cfg (backup cfg true (some gitDirs) sched).pool.progress).success =
          (okJobs (backup cfg true (some gitDirs) sched).pool.trace).length ∧
        (okJobs (backup cfg true (some gitDirs) sched).pool.trace).length +
            (failedJobs (backup cfg true (some gitDirs) sched).pool.trace).length =
          gitDirs.length ∧
        (bundledJobs (backup cfg true (some gitDirs) sched).pool.trace).Perm (jobsOf gitDirs) ∧
        (incrementedJobs (backup cfg true (some gitDirs) sched).pool.trace).Perm
          (jobsOf gitDirs)) ∧
    (∀ sched : List Sched, ∃ more,
      (backup cfg true (some gitDirs) (sched ++ more)).ret = Return.returned none) ∧
    (∀ sched : List Sched, (run cfg sched (Pool.start gitDirs)).joined = false →
      ∃ t, step cfg (run cfg sched (Pool.start gitDirs)) t ≠
        run cfg sched (Pool.start gitDirs)) ∧
    (∀ (sched : List Sched) (t : Sched),
      step cfg (run cfg sched (Pool.start gitDirs)) t = run cfg sched (Pool.start gitDirs) ∨
      (step cfg (run cfg sched (Pool.start gitDirs)) t).measure cfg <
        (run cfg sched (Pool.start gitDirs)).measure cfg) := by
  refine ⟨?_, backup_completes cfg gitDirs, ?_, fun sched t => step_same_or_less cfg _ t⟩
  swap
  · intro sched hj
    obtain ⟨t, ht⟩ := exists_progress cfg _ hj
    refine ⟨t, fun e => ?_⟩
    rw [e] at ht
    exact absurd ht (lt_irrefl _)
  intro sched hret
  have hinv := backup_Inv cfg gitDirs sched
  obtain ⟨p1, p2, p3⟩ := backup_join_perms cfg gitDirs sched hW hret
  have l1 := p1.length_eq
  have l2 := p2.length_eq
  have l3 := p3.length_eq
  have l4 := (trace_split (backup cfg true (some gitDirs) sched).pool.trace).length_eq
  rw [List.length_append] at l4
  simp only [jobsOf, List.length_map, List.enum_length] at l1 l2
  have hcur := hinv.current
  have htot := hinv.total
  have hfail := hinv.nfailed
  refine ⟨?_, htot, ?_, ?_, ?_, p2, p1⟩
  · rw [hcur, l1]
  · rw [hfail, l3]
  · simp only [summarize, Progress.GetCounts]
    rw [htot, hfail]
    omega
  · omega

/-- C1, witness: two repositories, one worker, the first bundle command failing. -/
theorem C1_backup_accounting_witness :
    (backup (demoConfig 1) true (some ["/r/a/.git".data, "/r/b/.git".data])
        (demoSchedule true false)).pool.progress.Current = 2 ∧
      (backup (demoConfig 1) true (some ["/r/a/.git".data, "/r/b/.git".data])
        (demoSchedule true false)).pool.progress.Failed = 1 :=
  ⟨((C1_backup_accounting (demoConfig 1) ["/r/a/.git".data, "/r/b/.git".data]
      (by decide)).1 (demoSchedule true false) (by decide)).1,
    by decide⟩

/-- C4, as amended. In every state reachable during a backup run, with the calls to
AddFailed and Increment as atomic steps: Failed equals the length of FailedRepos, Current
is at most Total, Failed is at most Total, and Failed exceeds Current by at most the number
of workers that have called AddFailed or finished a command and not yet called Increment,
which is at most the number of workers started. -/
theorem C4_progress_invariant (cfg : Config) (gitDirs : List GoString) (sched : List Sched) :
    (run cfg sched (Pool.start gitDirs)).progress.Failed =
        (run cfg sched (Pool.start gitDirs)).progress.FailedRepos.length ∧
      (run cfg sched (Pool.start gitDirs)).progress.Current ≤
        (run cfg sched (Pool.start gitDirs)).progress.Total ∧
      (run cfg sched (Pool.start gitDirs)).progress.Failed ≤
        (run cfg sched (Pool.start gitDirs)).progress.Total ∧
      (run cfg sched (Pool.start gitDirs)).progress.Failed ≤
        (run cfg sched (Pool.start gitDirs)).progress.Current +
          (((run cfg sched (Pool.start gitDirs)).workers.filterMap
            Worker.inIncrement).length : Int) ∧
      ((run cfg sched (Pool.start gitDirs)).workers.filterMap Worker.inIncrement).length ≤
        (run cfg sched (Pool.start gitDirs)).workers.length := by
  have hinv := Inv_run cfg gitDirs sched _ (Inv_start cfg gitDirs)
  have h4 := hinv.sizes
  have h5 := hinv.added_le
  have h6 := hinv.total
  have h7 := hinv.current
  have h8 := hinv.nfailed
  have h9 := hinv.names
  refine ⟨?_, ?_, ?_, ?_, List.length_filterMap_le _ _⟩
  · rw [h8, h9, List.length_map]
  · rw [h7, h6]
    omega
  · rw [h8, h6]
    omega
  · rw [h8, h7]
    omega

/-- C4, counterexample: one repository, one worker, the bundle command fails; after the
worker has called AddFailed and before it calls Increment, GetCounts returns
completed 0, failed 1, total 1, so Failed is greater than Current. -/
theorem C4_failed_exceeds_current :
    (run (demoConfig 1)
        [Sched.main, Sched.main, Sched.main, Sched.worker 0 true, Sched.worker 0 true,
          Sched.worker 0 true]
        (Pool.start ["/r/a/.git".data])).progress.GetCounts = (0, 1, 1) ∧
      ¬ ((run (demoConfig 1)
          [Sched.main, Sched.main, Sched.main, Sched.worker 0 true, Sched.worker 0 true,
            Sched.worker 0 true]
          (Pool.start ["/r/a/.git".data])).progress.Failed ≤
        (run (demoConfig 1)
          [Sched.main, Sched.main, Sched.main, Sched.worker 0 true, Sched.worker 0 true,
            Sched.worker 0 true]
          (Pool.start ["/r/a/.git".data])).progress.Current) := by
  decide

theorem jobsOf_names (gitDirs : List GoString) :
    (jobsOf gitDirs).map (fun j => repoNameOf j.gitDir) = gitDirs.map repoNameOf := by
  have h : (jobsOf gitDirs).map (fun j => j.gitDir) = gitDirs := by
    simp only [jobsOf, List.map_map]
    exact List.enum_map_snd gitDirs
  have h2 : (jobsOf gitDirs).map (fun j => repoNameOf j.gitDir) =
      ((jobsOf gitDirs).map (fun j => j.gitDir)).map repoNameOf := by
    rw [List.map_map]
    rfl
  rw [h2, h]

/-- C3, as amended. With at least one worker, once backup has returned the list given by
GetFailedRepos is a rearrangement of the names of the jobs whose command failed, one
entry per failed job, and every job is either a failed or a successful one, once. When
the derived names of the discovered directories are pairwise distinct, every failed job's
name appears exactly once (the list has no duplicates and holds the name) and no
successful job's name appears. -/
theorem C3_failed_names (cfg : Config) (gitDirs : List GoString) (sched : List Sched)
    (hW : 1 ≤ cfg.MaxJobs)
    (hret : (backup cfg true (some gitDirs) sched).ret = Return.returned none) :
    (backup cfg true (some gitDirs) sched).pool.progress.GetFailedRepos.Perm
        ((failedJobs (backup cfg true (some gitDirs) sched).pool.trace).map
          (fun j => repoNameOf j.gitDir)) ∧
      (failedJobs (backup cfg true (some gitDirs) sched).pool.trace ++
          okJobs (backup cfg true (some gitDirs) sched).pool.trace).Perm (jobsOf gitDirs) ∧
      ((gitDirs.map repoNameOf).Nodup →
        (backup cfg true (some gitDirs) sched).pool.progress.GetFailedRepos.Nodup ∧
        (∀ j ∈ failedJobs (backup cfg true (some gitDirs) sched).pool.trace,
          repoNameOf j.gitDir ∈
            (backup cfg true (some gitDirs) sched).pool.progress.GetFailedRepos) ∧
        (∀ j ∈ okJobs (backup cfg true (some gitDirs) sched).pool.trace,
          repoNameOf j.gitDir ∉
            (backup cfg true (some gitDirs) sched).pool.progress.GetFailedRepos)) := by
  have hinv := backup_Inv cfg gitDirs sched
  obtain ⟨_, p2, p3⟩ := backup_join_perms cfg gitDirs sched hW hret
  have hsplit := (trace_split (backup cfg true (some gitDirs) sched).pool.trace).trans p2
  have hnames : (backup cfg true (some gitDirs) sched).pool.progress.GetFailedRepos.Perm
      ((failedJobs (backup cfg true (some gitDirs) sched).pool.trace).map
        (fun j => repoNameOf j.gitDir)) := by
    show (backup cfg true (some gitDirs) sched).pool.progress.FailedRepos.Perm _
    rw [hinv.names]
    exact p3.map _
  refine ⟨hnames, hsplit, ?_⟩
  intro hnd
  have hmap := hsplit.map (fun j => repoNameOf j.gitDir)
  rw [jobsOf_names, List.map_append] at hmap
  have hnd2 := hmap.nodup_iff.mpr hnd
  obtain ⟨n1, _, hdisj⟩ := List.nodup_append.mp hnd2
  refine ⟨hnames.nodup_iff.mpr n1, ?_, ?_⟩
  · intro j hj
    exact hnames.mem_iff.mpr (List.mem_map_of_mem (fun j => repoNameOf j.gitDir) hj)
  · intro j hj hmem
    exact hdisj (hnames.mem_iff.mp hmem) (List.mem_map_of_mem (fun j => repoNameOf j.gitDir) hj)

/-- C3, witness: one worker, two repositories with distinct names, the first fails. -/
theorem C3_failed_names_witness :
    (backup (demoConfig 1) true (some ["/r/a/.git".data, "/r/b/.git".data])
        (demoSchedule true false)).pool.progress.GetFailedRepos.Perm
      ((failedJobs (backup (demoConfig 1) true (some ["/r/a/.git".data, "/r/b/.git".data])
        (demoSchedule true false)).pool.trace).map (fun j => repoNameOf j.gitDir)) ∧
    (backup (demoConfig 1) true (some ["/r/a/.git".data, "/r/b/.git".data])
        (demoSchedule true false)).pool.progress.GetFailedRepos = ["a".data] :=
  ⟨(C3_failed_names (demoConfig 1) ["/r/a/.git".data, "/r/b/.git".data]
      (demoSchedule true false) (by decide) (by decide)).1,
    by decide⟩

/-- C3, counterexample: the directories /r/x/.git and /r/x/y.git both derive the name x.
When both bundle commands fail, the list returned by GetFailedRepos holds x twice; when
only the first fails, the list holds x, the name of the second job, which succeeded. -/
theorem C3_duplicate_failed_name :
    (backup (demoConfig 1) true (some ["/r/x/.git".data, "/r/x/y.git".data])
        (demoSchedule true true)).ret = Return.returned none ∧
      (failedJobs (backup (demoConfig 1) true (some ["/r/x/.git".data, "/r/x/y.git".data])
        (demoSchedule true true)).pool.trace).map (fun j => repoNameOf j.gitDir) =
        ["x".data, "x".data] ∧
      (backup (demoConfig 1) true (some ["/r/x/.git".data, "/r/x/y.git".data])
        (demoSchedule true true)).pool.progress.GetFailedRepos = ["x".data, "x".data] ∧
      (backup (demoConfig 1) true (some ["/r/x/.git".data, "/r/x/y.git".data])
        (demoSchedule true false)).ret = Return.returned none ∧
      (okJobs (backup (demoConfig 1) true (some ["/r/x/.git".data, "/r/x/y.git".data])
        (demoSchedule true false)).pool.trace).map (fun j => repoNameOf j.gitDir) =
        ["x".data] ∧
      (backup (demoConfig 1) true (some ["/r/x/.git".data, "/r/x/y.git".data])
        (demoSchedule true false)).pool.progress.GetFailedRepos = ["x".data] ∧
      ¬ (backup (demoConfig 1) true (some ["/r/x/.git".data, "/r/x/y.git".data])
        (demoSchedule true true)).pool.progress.GetFailedRepos.Nodup := by
  decide

theorem step_no_workers (cfg : Config) (hW : cfg.MaxJobs ≤ 0) (s : Pool) (t : Sched)
    (hs : s.workers = []) :
    (step cfg s t).workers = [] ∧ (step cfg s t).trace = s.trace ∧
      (step cfg s t).progress = s.progress := by
  obtain ⟨toSend, jobs, closed, workers, joined, progress, trace⟩ := s
  simp only at hs
  subst hs
  cases t with
  | worker i err => simp [step, bundleWorker]
  | main =>
    have hlt : ¬ (((([] : List Worker).length : Nat) : Int) < cfg.MaxJobs) := by
      simp
      omega
    simp only [step, backupMain]
    rw [if_neg hlt]
    cases joined <;> cases toSend <;> cases closed <;> simp

theorem run_no_workers (cfg : Config) (hW : cfg.MaxJobs ≤ 0) (sched : List Sched) :
    ∀ s : Pool, s.workers = [] →
      (run cfg sched s).workers = [] ∧ (run cfg sched s).trace = s.trace ∧
        (run cfg sched s).progress = s.progress := by
  induction sched with
  | nil => intro s hs; exact ⟨hs, rfl, rfl⟩
  | cons t ts ih =>
    intro s hs
    obtain ⟨h1, h2, h3⟩ := step_no_workers cfg hW s t hs
    obtain ⟨k1, k2, k3⟩ := ih (step cfg s t) h1
    exact ⟨k1, k2.trans h2, k3.trans h3⟩

/-- C2: what the code does for a configured worker count of zero or less. No worker is
started, no bundle command runs, Current stays 0 while Total is the number of discovered
directories, and backup still returns, its summary reporting every repository as
successfully bundled. -/
theorem C2_no_worker_when_MaxJobs_nonpositive (cfg : Config) (gitDirs : List GoString)
    (hW : cfg.MaxJobs ≤ 0) (hne : gitDirs ≠ []) :
    (∀ sched : List Sched,
      (backup cfg true (some gitDirs) sched).pool.workers = [] ∧
      (backup cfg true (some gitDirs) sched).pool.trace = [] ∧
      (backup cfg true (some gitDirs) sched).pool.progress.Current = 0 ∧
      (backup cfg true (some gitDirs) sched).pool.progress.Total = gitDirs.length ∧
      ((backup cfg true (some gitDirs) sched).ret = Return.returned none →
        (backup cfg true (some gitDirs) sched).summary =
          some ⟨0, gitDirs.length, [], gitDirs.length, 0, cfg.MaxJobs⟩)) ∧
    (∃ sched : List Sched,
      (backup cfg true (some gitDirs) sched).ret = Return.returned none) := by
  constructor
  · intro sched
    obtain ⟨h1, h2, h3⟩ := run_no_workers cfg hW sched (Pool.start gitDirs) rfl
    rcases backup_pool cfg gitDirs sched with h | h | h
    · exact absurd h.1 hne
    · obtain ⟨_, k2, _, _, k5⟩ := h
      rw [k2, k5, h1, h2, h3]
      refine ⟨rfl, rfl, rfl, rfl, ?_⟩
      intro _
      simp [summarize, Progress.GetCounts, Progress.GetFailedRepos, Pool.start]
    · obtain ⟨_, k2, _, k4, _⟩ := h
      rw [k2, k4, h1, h2, h3]
      refine ⟨rfl, rfl, rfl, rfl, ?_⟩
      intro hcon
      cases hcon
  · obtain ⟨more, hmore⟩ := backup_completes cfg gitDirs []
    exact ⟨[] ++ more, hmore⟩

/-- C2, witness: MAX_JOBS set to the string 0 leaves MaxJobs at 0; with one repository
backup starts no worker and Current stays 0. -/
theorem C2_no_worker_witness :
    (initConfig "/home/u".data
        (fun key => if key = "MAX_JOBS".data then "0".data else [])
        (fun s => if s = "0".data then some 0 else none) 4).MaxJobs = 0 ∧
    (backup (initConfig "/home/u".data
        (fun key => if key = "MAX_JOBS".data then "0".data else [])
        (fun s => if s = "0".data then some 0 else none) 4) true
      (some ["/r/a/.git".data]) [Sched.main, Sched.main, Sched.main]).pool.progress.Current
        = 0 :=
  ⟨by decide,
    ((C2_no_worker_when_MaxJobs_nonpositive
      (initConfig "/home/u".data
        (fun key => if key = "MAX_JOBS".data then "0".data else [])
        (fun s => if s = "0".data then some 0 else none) 4)
      ["/r/a/.git".data] (by decide) (by decide)).1 _).2.2.1⟩

/-! Section: Restore: the claims about restore -/

theorem LoopOK_restoreOne {σ : Type} (os : RestoreOS σ) (destDir : GoString)
    (st : RestoreLoop σ) (bundleFile : GoString) (h : LoopOK destDir st) :
    LoopOK destDir (restoreOne os destDir st bundleFile) ∧
      (restoreOne os destDir st bundleFile).attempts.map Attempt.bundleFile =
        st.attempts.map Attempt.bundleFile ++ [bundleFile] := by
  obtain ⟨h1, h2, h3⟩ := h
  unfold restoreOne restoreClone
  split_ifs <;>
    refine ⟨⟨?_, ?_, ?_⟩, ?_⟩ <;>
    simp [h1, h2, List.filter_append, List.filter_cons, Attempt.succeeded, Attempt.failed] <;>
    first
      | exact h3
      | (intro a ha
         rcases ha with ha | ha
         · exact h3 a ha
         · subst ha
           simp [Attempt.succeeded, Attempt.failed])

theorem LoopOK_foldl {σ : Type} (os : RestoreOS σ) (destDir : GoString)
    (bundleFiles : List GoString) :
    ∀ st : RestoreLoop σ, LoopOK destDir st →
      LoopOK destDir (bundleFiles.foldl (restoreOne os destDir) st) ∧
        (bundleFiles.foldl (restoreOne os destDir) st).attempts.map Attempt.bundleFile =
          st.attempts.map Attempt.bundleFile ++ bundleFiles := by
  induction bundleFiles with
  | nil => intro st h; exact ⟨h, by simp⟩
  | cons b bs ih =>
    intro st h
    obtain ⟨h1, h2⟩ := LoopOK_restoreOne os destDir st b h
    obtain ⟨h3, h4⟩ := ih _ h1
    refine ⟨h3, ?_⟩
    rw [List.foldl_cons, h4, h2]
    simp

theorem filter_split (l : List Attempt) (h : ∀ a ∈ l, a.failed = !a.succeeded) :
    (l.filter Attempt.succeeded).length + (l.filter Attempt.failed).length = l.length := by
  induction l with
  | nil => rfl
  | cons a t ih =>
    have ha := h a (by simp)
    have ht := ih (fun x hx => h x (by simp [hx]))
    cases hs : a.succeeded <;> simp [List.filter_cons, hs, ha] <;> omega

theorem existingReposOf_foldl {σ : Type} (os : RestoreOS σ) (w : σ) (destDir : GoString)
    (bundleFiles : List GoString) :
    ∀ acc : List GoString,
      bundleFiles.foldl
        (fun existingRepos bundleFile =>
          if os.stat w (Join [destDir, bundleNameOf bundleFile]) = StatResult.ok then
            existingRepos ++ [bundleNameOf bundleFile]
          else existingRepos) acc =
      acc ++ (bundleFiles.map bundleNameOf).filter
        (fun name => decide (os.stat w (Join [destDir, name]) = StatResult.ok)) := by
  induction bundleFiles with
  | nil => intro acc; simp
  | cons b bs ih =>
    intro acc
    rw [List.foldl_cons, ih]
    by_cases hb : os.stat w (Join [destDir, bundleNameOf b]) = StatResult.ok
    · simp [hb, List.filter_cons]
    · simp [hb, List.filter_cons]

theorem existingReposOf_eq {σ : Type} (os : RestoreOS σ) (w : σ) (destDir : GoString)
    (bundleFiles : List GoString) :
    existingReposOf os w destDir bundleFiles =
      (bundleFiles.map bundleNameOf).filter
        (fun name => decide (os.stat w (Join [destDir, name]) = StatResult.ok)) := by
  unfold existingReposOf
  rw [existingReposOf_foldl]
  simp

theorem existingReposOf_pos {σ : Type} (os : RestoreOS σ) (w : σ) (destDir : GoString)
    (bundleFiles : List GoString) :
    (existingReposOf os w destDir bundleFiles).length > 0 ↔
      ∃ b ∈ bundleFiles, os.stat w (Join [destDir, bundleNameOf b]) = StatResult.ok := by
  rw [existingReposOf_eq, gt_iff_lt, List.length_pos, ne_eq, List.filter_eq_nil_iff]
  simp

theorem confirm_iff (lower : Char → Char)
    (hlow : ∀ c, lower c = 'y' ↔ (c = 'y' ∨ c = 'Y')) (response : GoString) :
    HasPrefix (ToLower lower response) "y".data = true ↔ beginsWithY response := by
  cases response with
  | nil => simp [HasPrefix, ToLower, beginsWithY]
  | cons c t =>
    simp [HasPrefix, ToLower, beginsWithY, hlow]

theorem restoreLoop_spec {σ : Type} (os : RestoreOS σ) (destDir : GoString)
    (bundleFiles : List GoString) (w : σ) (warned : Option (List GoString)) :
    let r := restoreLoop os destDir bundleFiles w warned
    r.err = none ∧ r.cancelled = false ∧
      r.attempts.map Attempt.bundleFile = bundleFiles ∧
      r.totalCount = bundleFiles.length ∧
      r.successCount + r.failedCount = r.totalCount ∧
      r.successCount = ((r.attempts.filter Attempt.succeeded).length : Int) ∧
      r.failedCount = ((r.attempts.filter Attempt.failed).length : Int) ∧
      ∀ a ∈ r.attempts,
        a.failed = !a.succeeded ∧ (a.removeAll = some false → a.clone = none) ∧
          a.bundleName = bundleNameOf a.bundleFile ∧
          a.destPath = Join [destDir, bundleNameOf a.bundleFile] := by
  have h0 : LoopOK destDir
      ({ world := w, successCount := 0, failedCount := 0, attempts := [] } : RestoreLoop σ) :=
    ⟨by simp, by simp, by simp⟩
  obtain ⟨⟨h1, h2, h3⟩, h4⟩ := LoopOK_foldl os destDir bundleFiles _ h0
  simp only [List.map_nil, List.nil_append] at h4
  have hlen := congrArg List.length h4
  rw [List.length_map] at hlen
  have hsplit := filter_split _ (fun a ha => (h3 a ha).1)
  refine ⟨rfl, rfl, h4, rfl, ?_, h1, h2, h3⟩
  simp only [restoreLoop]
  rw [h1, h2]
  omega

theorem restoreFrom_cases {σ : Type} (os : RestoreOS σ) (cfg : Config) (response : GoString)
    (destDir : GoString) (bundleFiles : List GoString) (w : σ) :
    let r := restoreFrom os cfg response destDir bundleFiles w
    (r.cancelled = true ∧ r.err = none ∧ r.attempts = [] ∧ r.world = w ∧
        bundleFiles ≠ [] ∧ (existingReposOf os w destDir bundleFiles).length > 0 ∧
        cfg.Force = false ∧ HasPrefix (ToLower os.toLower response) "y".data = false ∧
        r.warned = some (existingReposOf os w destDir bundleFiles)) ∨
    (bundleFiles = [] ∧ r = restoreLoop os destDir bundleFiles w none) ∨
    (bundleFiles ≠ [] ∧ (existingReposOf os w destDir bundleFiles).length > 0 ∧
        cfg.Force = false ∧ HasPrefix (ToLower os.toLower response) "y".data = true ∧
        r = restoreLoop os destDir bundleFiles w
          (some (existingReposOf os w destDir bundleFiles))) ∨
    (bundleFiles ≠ [] ∧
        ¬((existingReposOf os w destDir bundleFiles).length > 0 ∧ cfg.Force = false) ∧
        r = restoreLoop os destDir bundleFiles w none) := by
  intro r
  rcases Classical.em (bundleFiles.length = 0) with h0 | h0
  · right; left
    have : bundleFiles = [] := List.length_eq_zero.mp h0
    subst this
    exact ⟨rfl, rfl⟩
  have hne : bundleFiles ≠ [] := fun e => h0 (by simp [e])
  rcases Classical.em ((existingReposOf os w destDir bundleFiles).length > 0 ∧
      cfg.Force = false) with hg | hg
  · cases hy : HasPrefix (ToLower os.toLower response) "y".data with
    | false =>
      left
      have hr : r = RestoreRun.mk none w (some (existingReposOf os w destDir bundleFiles))
          true [] 0 0 0 := by
        show restoreFrom os cfg response destDir bundleFiles w = _
        unfold restoreFrom
        rw [if_neg h0, if_pos hg, if_pos hy]
      rw [hr]
      exact ⟨rfl, rfl, rfl, rfl, hne, hg.1, hg.2, rfl, rfl⟩
    | true =>
      right; right; left
      refine ⟨hne, hg.1, hg.2, rfl, ?_⟩
      show restoreFrom os cfg response destDir bundleFiles w = _
      unfold restoreFrom
      rw [if_neg h0, if_pos hg, if_neg (by simp [hy])]
  · right; right; right
    refine ⟨hne, hg, ?_⟩
    show restoreFrom os cfg response destDir bundleFiles w = _
    unfold restoreFrom
    rw [if_neg h0, if_neg hg]

theorem restoreOne_jobRan {σ : Type} (os : RestoreOS σ) (destDir : GoString)
    (st : RestoreLoop σ) (bundleFile : GoString) :
    ∃ a, (restoreOne os destDir st bundleFile).attempts = st.attempts ++ [a] ∧
      jobRan os destDir st.world bundleFile a (restoreOne os destDir st bundleFile).world := by
  unfold restoreOne restoreClone
  rcases Classical.em (os.stat st.world (Join [destDir, bundleNameOf bundleFile]) =
    StatResult.ok) with hs | hs
  · rw [if_pos hs]
    cases hr : (os.removeAll st.world (Join [destDir, bundleNameOf bundleFile])).1 with
    | false =>
      rw [if_pos rfl]
      refine ⟨_, rfl, rfl, rfl, rfl, ?_, ?_, ?_⟩
      · intro h; exact absurd hs h
      · intro _ _; exact ⟨rfl, rfl, rfl⟩
      · intro _ h
        simp only at h
        rw [hr] at h
        cases h
    | true =>
      rw [if_neg (by simp)]
      cases hc : (os.gitClone (os.removeAll st.world (Join [destDir, bundleNameOf bundleFile])).2
        bundleFile (Join [destDir, bundleNameOf bundleFile])).1 with
      | false =>
        rw [if_pos rfl]
        refine ⟨_, rfl, rfl, rfl, rfl, ?_, ?_, ?_⟩
        · intro h; exact absurd hs h
        · intro _ h
          simp only at h
          rw [hr] at h
          cases h
        · intro _ _
          refine ⟨rfl, ?_, rfl⟩
          simp only [hc]
      | true =>
        rw [if_neg (by simp)]
        refine ⟨_, rfl, rfl, rfl, rfl, ?_, ?_, ?_⟩
        · intro h; exact absurd hs h
        · intro _ h
          simp only at h
          rw [hr] at h
          cases h
        · intro _ _
          refine ⟨rfl, ?_, rfl⟩
          simp only [hc]
  · rw [if_neg hs]
    cases hc : (os.gitClone st.world bundleFile (Join [destDir, bundleNameOf bundleFile])).1 with
    | false =>
      rw [if_pos rfl]
      refine ⟨_, rfl, rfl, rfl, rfl, ?_, ?_, ?_⟩
      · intro _
        refine ⟨rfl, ?_, rfl⟩
        simp only [hc]
      · intro h; exact absurd h hs
      · intro h; exact absurd h hs
    | true =>
      rw [if_neg (by simp)]
      refine ⟨_, rfl, rfl, rfl, rfl, ?_, ?_, ?_⟩
      · intro _
        refine ⟨rfl, ?_, rfl⟩
        simp only [hc]
      · intro h; exact absurd h hs
      · intro h; exact absurd h hs

theorem foldl_jobsRan {σ : Type} (os : RestoreOS σ) (destDir : GoString)
    (bundleFiles : List GoString) :
    ∀ st : RestoreLoop σ, ∃ new,
      (bundleFiles.foldl (restoreOne os destDir) st).attempts = st.attempts ++ new ∧
      jobsRan os destDir st.world bundleFiles new
        (bundleFiles.foldl (restoreOne os destDir) st).world := by
  induction bundleFiles with
  | nil =>
    intro st
    exact ⟨[], by simp, rfl⟩
  | cons b bs ih =>
    intro st
    obtain ⟨a, ha, hjob⟩ := restoreOne_jobRan os destDir st b
    obtain ⟨new, hnew, hjobs⟩ := ih (restoreOne os destDir st b)
    refine ⟨a :: new, ?_, _, hjob, hjobs⟩
    rw [List.foldl_cons, hnew, ha]
    simp

theorem restoreLoop_jobsRan {σ : Type} (os : RestoreOS σ) (destDir : GoString)
    (bundleFiles : List GoString) (w : σ) (warned : Option (List GoString)) :
    jobsRan os destDir w bundleFiles (restoreLoop os destDir bundleFiles w warned).attempts
      (restoreLoop os destDir bundleFiles w warned).world := by
  obtain ⟨new, hnew, hjobs⟩ := foldl_jobsRan os destDir bundleFiles
    { world := w, successCount := 0, failedCount := 0, attempts := [] }
  simp only [List.nil_append] at hnew
  simp only [restoreLoop]
  rw [hnew]
  exact hjobs

theorem Char_toLower_eq_y (c : Char) : c.toLower = 'y' ↔ (c = 'y' ∨ c = 'Y') := by
  constructor
  · intro h
    unfold Char.toLower at h
    simp only at h
    split_ifs at h with hr
    · right
      obtain ⟨h1, h2⟩ := hr
      have hc : c = Char.ofNat c.toNat := (Char.ofNat_toNat c).symm
      generalize c.toNat = n at h h1 h2 hc
      subst hc
      interval_cases n <;> first | rfl | (exfalso; revert h; decide)
    · left; exact h
  · rintro (h | h) <;> subst h <;> rfl

/-- C5. Restore confirmation gate: with a collision, no force flag and a response that
does not begin with y or Y, restore runs no job, leaves the world untouched and returns
no error; with a response beginning with y or Y, or the force flag, or no collision, the
job of every discovered bundle runs, in discovery order, each in the world the previous
job left: the destination is statted, an existing one is removed, and the bundle is
cloned unless the removal failed. -/
theorem C5_restore_confirmation_gate {σ : Type} (os : RestoreOS σ) (cfg : Config)
    (response destDir : GoString) (bundleFiles : List GoString) (w : σ)
    (hlow : ∀ c, os.toLower c = 'y' ↔ (c = 'y' ∨ c = 'Y')) :
    ((∃ b ∈ bundleFiles, os.stat w (Join [destDir, bundleNameOf b]) = StatResult.ok) →
      cfg.Force = false → ¬ beginsWithY response →
        (restoreFrom os cfg response destDir bundleFiles w).attempts = [] ∧
        (restoreFrom os cfg response destDir bundleFiles w).world = w ∧
        (restoreFrom os cfg response destDir bundleFiles w).err = none ∧
        (restoreFrom os cfg response destDir bundleFiles w).cancelled = true) ∧
    ((beginsWithY response ∨ cfg.Force = true ∨
        ∀ b ∈ bundleFiles, os.stat w (Join [destDir, bundleNameOf b]) ≠ StatResult.ok) →
        (restoreFrom os cfg response destDir bundleFiles w).attempts.map Attempt.bundleFile =
          bundleFiles ∧
        (restoreFrom os cfg response destDir bundleFiles w).err = none ∧
        (restoreFrom os cfg response destDir bundleFiles w).cancelled = false ∧
        jobsRan os destDir w bundleFiles
          (restoreFrom os cfg response destDir bundleFiles w).attempts
          (restoreFrom os cfg response destDir bundleFiles w).world) := by
  have hcases := restoreFrom_cases os cfg response destDir bundleFiles w
  simp only at hcases
  constructor
  · intro hex hforce hresp
    have hpos := (existingReposOf_pos os w destDir bundleFiles).mpr hex
    have hno : HasPrefix (ToLower os.toLower response) "y".data ≠ true := by
      intro hy
      exact hresp ((confirm_iff os.toLower hlow response).mp hy)
    rcases hcases with h | h | h | h
    · exact ⟨h.2.2.1, h.2.2.2.1, h.2.1, h.1⟩
    · obtain ⟨b, hb, _⟩ := hex
      rw [h.1] at hb
      simp at hb
    · exact absurd h.2.2.2.1 hno
    · exact absurd ⟨hpos, hforce⟩ h.2.1
  · intro hgo
    have hloop : ∀ warned, (restoreFrom os cfg response destDir bundleFiles w) =
        restoreLoop os destDir bundleFiles w warned →
        (restoreFrom os cfg response destDir bundleFiles w).attempts.map Attempt.bundleFile =
          bundleFiles ∧
        (restoreFrom os cfg response destDir bundleFiles w).err = none ∧
        (restoreFrom os cfg response destDir bundleFiles w).cancelled = false ∧
        jobsRan os destDir w bundleFiles
          (restoreFrom os cfg response destDir bundleFiles w).attempts
          (restoreFrom os cfg response destDir bundleFiles w).world := by
      intro warned hr
      have hs := restoreLoop_spec os destDir bundleFiles w warned
      simp only at hs
      rw [hr]
      exact ⟨hs.2.2.1, hs.1, hs.2.1, restoreLoop_jobsRan os destDir bundleFiles w warned⟩
    rcases hcases with h | h | h | h
    · exfalso
      obtain ⟨_, _, _, _, _, hpos, hforce, hy, _⟩ := h
      rcases hgo with hg | hg | hg
      · have := (confirm_iff os.toLower hlow response).mpr hg
        rw [hy] at this
        exact absurd this (by decide)
      · rw [hforce] at hg
        exact absurd hg (by decide)
      · obtain ⟨b, hb, hst⟩ := (existingReposOf_pos os w destDir bundleFiles).mp hpos
        exact hg b hb hst
    · exact hloop _ h.2
    · exact hloop _ h.2.2.2.2
    · exact hloop _ h.2.2

/-- C5, witness: x already exists at the destination and the force flag is not set.
With the response n nothing runs and /d/x keeps its contents; with the response yes the
job for x.bundle runs: /d/x is removed and the bundle is cloned there. -/
theorem C5_restore_confirmation_gate_witness :
    ((restoreFrom workingOS (demoConfig 1) "n".data "/d".data ["/b/x.bundle".data]
        demoFS).attempts = [] ∧
      (restoreFrom workingOS (demoConfig 1) "n".data "/d".data ["/b/x.bundle".data]
        demoFS).world = demoFS ∧
      (restoreFrom workingOS (demoConfig 1) "n".data "/d".data ["/b/x.bundle".data]
        demoFS).cancelled = true) ∧
    jobsRan workingOS "/d".data demoFS ["/b/x.bundle".data]
      (restoreFrom workingOS (demoConfig 1) "yes".data "/d".data ["/b/x.bundle".data]
        demoFS).attempts
      (restoreFrom workingOS (demoConfig 1) "yes".data "/d".data ["/b/x.bundle".data]
        demoFS).world ∧
    (restoreFrom workingOS (demoConfig 1) "yes".data "/d".data ["/b/x.bundle".data]
        demoFS).attempts =
      [⟨"/b/x.bundle".data, "x".data, "/d/x".data, some true, some true⟩] ∧
    (restoreFrom workingOS (demoConfig 1) "yes".data "/d".data ["/b/x.bundle".data]
        demoFS).world "/d/x".data = some "/b/x.bundle".data ∧
    (restoreFrom workingOS (demoConfig 1) "n".data "/d".data ["/b/x.bundle".data]
        demoFS).world "/d/x".data = some [] :=
  have hno := (C5_restore_confirmation_gate workingOS (demoConfig 1) "n".data "/d".data
    ["/b/x.bundle".data] demoFS Char_toLower_eq_y).1
    ⟨"/b/x.bundle".data, by simp, by decide⟩ rfl (by simp [beginsWithY])
  have hyes := (C5_restore_confirmation_gate workingOS (demoConfig 1) "yes".data "/d".data
    ["/b/x.bundle".data] demoFS Char_toLower_eq_y).2 (Or.inl (by simp [beginsWithY]))
  ⟨⟨hno.1, hno.2.1, hno.2.2.2⟩, hyes.2.2.2, by decide, by decide, by decide⟩

/-- C6. Restore accounting and local recovery: whenever the confirmation gate lets the
restore proceed, the job of every bundle file runs once, in discovery order, each in the
world the previous job left, its record holding what `os.RemoveAll` and `git clone`
returned; the success and failure counters add up to the total (the number of bundle
files); the failure counter counts exactly the jobs whose removal or clone returned an
error, the success counter those whose clone succeeded; and a job whose removal failed
made no clone. -/
theorem C6_restore_accounting {σ : Type} (os : RestoreOS σ) (cfg : Config)
    (response destDir : GoString) (bundleFiles : List GoString) (w : σ)
    (hgate : (restoreFrom os cfg response destDir bundleFiles w).cancelled = false) :
    (restoreFrom os cfg response destDir bundleFiles w).attempts.map Attempt.bundleFile =
        bundleFiles ∧
      (restoreFrom os cfg response destDir bundleFiles w).totalCount = bundleFiles.length ∧
      (restoreFrom os cfg response destDir bundleFiles w).successCount +
          (restoreFrom os cfg response destDir bundleFiles w).failedCount =
        (restoreFrom os cfg response destDir bundleFiles w).totalCount ∧
      (restoreFrom os cfg response destDir bundleFiles w).failedCount =
        (((restoreFrom os cfg response destDir bundleFiles w).attempts.filter
          (fun a => a.removeAll == some false || a.clone == some false)).length : Int) ∧
      (restoreFrom os cfg response destDir bundleFiles w).successCount =
        (((restoreFrom os cfg response destDir bundleFiles w).attempts.filter
          (fun a => a.clone == some true)).length : Int) ∧
      (∀ a ∈ (restoreFrom os cfg response destDir bundleFiles w).attempts,
        (a.removeAll = some false → a.clone = none) ∧
        ((a.removeAll = some false ∨ a.clone = some false) ↔ a.clone ≠ some true) ∧
        a.destPath = Join [destDir, TrimSuffix (Base a.bundleFile) bundleSuffix]) ∧
      jobsRan os destDir w bundleFiles
        (restoreFrom os cfg response destDir bundleFiles w).attempts
        (restoreFrom os cfg response destDir bundleFiles w).world := by
  have hcases := restoreFrom_cases os cfg response destDir bundleFiles w
  simp only at hcases
  have hex : ∃ warned, restoreFrom os cfg response destDir bundleFiles w =
      restoreLoop os destDir bundleFiles w warned := by
    rcases hcases with h | h | h | h
    · rw [h.1] at hgate
      exact absurd hgate (by decide)
    · exact ⟨_, h.2⟩
    · exact ⟨_, h.2.2.2.2⟩
    · exact ⟨_, h.2.2⟩
  obtain ⟨warned, hr⟩ := hex
  have hs := restoreLoop_spec os destDir bundleFiles w warned
  have hjobs := restoreLoop_jobsRan os destDir bundleFiles w warned
  simp only at hs
  rw [← hr] at hs hjobs
  obtain ⟨_, _, h3, h4, h5, h6, h7, h8⟩ := hs
  refine ⟨h3, h4, h5, h7, h6, ?_, hjobs⟩
  intro a ha
  obtain ⟨k1, k2, _, k4⟩ := h8 a ha
  refine ⟨k2, ?_, k4⟩
  simp only [Attempt.failed, Attempt.succeeded] at k1
  cases hrm : a.removeAll with
  | none =>
    cases hcl : a.clone with
    | none => simp [hrm, hcl] at k1
    | some c => cases c <;> simp
  | some r =>
    cases hcl : a.clone with
    | none => cases r <;> simp [hrm, hcl] at k1 ⊢
    | some c => cases c <;> cases r <;> simp [hrm, hcl] at k1 ⊢

/-- C6, witness: three bundles restored with the force flag where /d/x exists and
cannot be removed and y.bundle cannot be cloned. The job for x fails at the removal and
makes no clone, the job for y fails at the clone, the job for z succeeds: total 3,
succeeded 1, failed 2. -/
theorem C6_restore_accounting_witness :
    jobsRan mixedOS "/d".data demoFS
      ["/b/x.bundle".data, "/b/y.bundle".data, "/b/z.bundle".data]
      (restoreFrom mixedOS forceConfig [] "/d".data
        ["/b/x.bundle".data, "/b/y.bundle".data, "/b/z.bundle".data] demoFS).attempts
      (restoreFrom mixedOS forceConfig [] "/d".data
        ["/b/x.bundle".data, "/b/y.bundle".data, "/b/z.bundle".data] demoFS).world ∧
    (restoreFrom mixedOS forceConfig [] "/d".data
        ["/b/x.bundle".data, "/b/y.bundle".data, "/b/z.bundle".data] demoFS).attempts =
      [⟨"/b/x.bundle".data, "x".data, "/d/x".data, some false, none⟩,
        ⟨"/b/y.bundle".data, "y".data, "/d/y".data, none, some false⟩,
        ⟨"/b/z.bundle".data, "z".data, "/d/z".data, none, some true⟩] ∧
    (restoreFrom mixedOS forceConfig [] "/d".data
        ["/b/x.bundle".data, "/b/y.bundle".data, "/b/z.bundle".data] demoFS).totalCount = 3 ∧
    (restoreFrom mixedOS forceConfig [] "/d".data
        ["/b/x.bundle".data, "/b/y.bundle".data, "/b/z.bundle".data] demoFS).successCount = 1 ∧
    (restoreFrom mixedOS forceConfig [] "/d".data
        ["/b/x.bundle".data, "/b/y.bundle".data, "/b/z.bundle".data] demoFS).failedCount = 2 ∧
    (restoreFrom mixedOS forceConfig [] "/d".data
        ["/b/x.bundle".data, "/b/y.bundle".data, "/b/z.bundle".data] demoFS).world
      "/d/z".data = some "/b/z.bundle".data ∧
    (restoreFrom mixedOS forceConfig [] "/d".data
        ["/b/x.bundle".data, "/b/y.bundle".data, "/b/z.bundle".data] demoFS).world
      "/d/y".data = none :=
  ⟨(C6_restore_accounting mixedOS forceConfig [] "/d".data
      ["/b/x.bundle".data, "/b/y.bundle".data, "/b/z.bundle".data] demoFS (by decide)).2.2.2.2.2.2,
    by decide, by decide, by decide, by decide, by decide, by decide⟩

/-- C7. Restore collision detection: the list built by the existence check is exactly
the bundle names, in discovery order, whose destination path stats without error, and
the overwrite warning, when it is printed, shows that list. With bundles A, B and C and
destinations A and B present, the warning lists A and B. -/
theorem C7_restore_collision_list {σ : Type} (os : RestoreOS σ) (cfg : Config)
    (response destDir : GoString) (bundleFiles : List GoString) (w : σ) :
    existingReposOf os w destDir bundleFiles =
        (bundleFiles.map (fun f => TrimSuffix (Base f) bundleSuffix)).filter
          (fun name => decide (os.stat w (Join [destDir, name]) = StatResult.ok)) ∧
      (restoreFrom os cfg response destDir bundleFiles w).warned =
        (if (existingReposOf os w destDir bundleFiles) ≠ [] ∧ cfg.Force = false then
          some (existingReposOf os w destDir bundleFiles)
        else none) ∧
      (restoreFrom refusingOS (demoConfig 1) "n".data "/d".data
          ["/b/A.bundle".data, "/b/B.bundle".data, "/b/C.bundle".data] demoFSAB).warned =
        some ["A".data, "B".data] := by
  refine ⟨existingReposOf_eq os w destDir bundleFiles, ?_, by decide⟩
  have hcases := restoreFrom_cases os cfg response destDir bundleFiles w
  simp only at hcases
  have hpos : (existingReposOf os w destDir bundleFiles).length > 0 ↔
      existingReposOf os w destDir bundleFiles ≠ [] := by
    rw [gt_iff_lt, List.length_pos]
  rcases hcases with h | h | h | h
  · obtain ⟨_, _, _, _, _, h6, h7, _, h9⟩ := h
    rw [h9, if_pos ⟨hpos.mp h6, h7⟩]
  · obtain ⟨h1, h2⟩ := h
    rw [h2]
    subst h1
    simp [existingReposOf, restoreLoop]
  · obtain ⟨_, h6, h7, _, h9⟩ := h
    rw [h9, if_pos ⟨hpos.mp h6, h7⟩]
    rfl
  · obtain ⟨_, h6, h9⟩ := h
    rw [h9, if_neg (fun hh => h6 ⟨hpos.mpr hh.1, hh.2⟩)]
    rfl

theorem DestDir.remove_apply (fs : DestDir) (path p : GoString) :
    fs.remove path p = if p = path then none else fs p := rfl

theorem DestDir.put_apply (fs : DestDir) (path contents p : GoString) :
    fs.put path contents p = if p = path then some contents else fs p := rfl

theorem DestDir.leave_apply (fs : DestDir) (path : GoString) (left : Option GoString)
    (p : GoString) :
    fs.leave path left p = if p = path then left else fs p := rfl

theorem restoreFrom_force {σ : Type} (os : RestoreOS σ) (cfg : Config)
    (response destDir : GoString) (bundleFiles : List GoString) (w : σ)
    (hforce : cfg.Force = true) :
    restoreFrom os cfg response destDir bundleFiles w =
      restoreLoop os destDir bundleFiles w none := by
  have hcases := restoreFrom_cases os cfg response destDir bundleFiles w
  simp only at hcases
  rcases hcases with h | h | h | h
  · have := h.2.2.2.2.2.2.1
    rw [hforce] at this
    exact absurd this (by decide)
  · exact h.2
  · have := h.2.2.1
    rw [hforce] at this
    exact absurd this (by decide)
  · exact h.2.2

theorem foldl_attempts_mono {σ : Type} (os : RestoreOS σ) (destDir : GoString)
    (bundleFiles : List GoString) (st : RestoreLoop σ) (a : Attempt) (ha : a ∈ st.attempts) :
    a ∈ (bundleFiles.foldl (restoreOne os destDir) st).attempts := by
  obtain ⟨new, hnew, _⟩ := foldl_jobsRan os destDir bundleFiles st
  rw [hnew]
  exact List.mem_append_left _ ha

/-- One restore job in which the delete, if any, succeeded overwrites the destination
with what the clone wrote, and counts the outcome of the clone. -/
theorem restoreOne_clean (deleteOk : DestDir → GoString → Bool)
    (afterFailedDelete : DestDir → GoString → DestDir)
    (cloneOk : GoString → GoString → Bool)
    (afterFailedClone : GoString → GoString → Option GoString)
    (contents : GoString → GoString)
    (destDir : GoString) (st : RestoreLoop DestDir) (b : GoString)
    (h : ∀ a ∈ (restoreOne (destDirOS deleteOk afterFailedDelete cloneOk afterFailedClone contents) destDir
      st b).attempts, a.removeAll ≠ some false) :
    (restoreOne (destDirOS deleteOk afterFailedDelete cloneOk afterFailedClone contents) destDir st b).world =
        st.world.recloned cloneOk afterFailedClone contents destDir b ∧
      (restoreOne (destDirOS deleteOk afterFailedDelete cloneOk afterFailedClone contents) destDir
          st b).successCount =
        st.successCount + (if cloneOk b (Join [destDir, bundleNameOf b]) then 1 else 0) ∧
      (restoreOne (destDirOS deleteOk afterFailedDelete cloneOk afterFailedClone contents) destDir
          st b).failedCount =
        st.failedCount + (if cloneOk b (Join [destDir, bundleNameOf b]) then 0 else 1) := by
  unfold restoreOne restoreClone at h ⊢
  simp only [destDirOS] at h ⊢
  cases hv : st.world (Join [destDir, bundleNameOf b]) with
  | none =>
    cases hc : cloneOk b (Join [destDir, bundleNameOf b]) with
    | false =>
      simp only [hv, hc, Option.isSome_none, Bool.false_eq_true, if_false, if_true]
      refine ⟨?_, by simp, by simp⟩
      funext q
      simp only [DestDir.recloned]
      by_cases hq : q = Join [destDir, bundleNameOf b]
      · simp [hq, hv, hc, DestDir.put_apply, DestDir.remove_apply, DestDir.leave_apply]
      · simp [hq, DestDir.put_apply, DestDir.remove_apply, DestDir.leave_apply]
    | true =>
      simp only [hv, hc, Option.isSome_none, Bool.false_eq_true, if_false, if_true]
      refine ⟨?_, by simp, by simp⟩
      funext q
      simp only [DestDir.recloned, DestDir.put_apply]
      by_cases hq : q = Join [destDir, bundleNameOf b]
      · simp [hq, hc, DestDir.put_apply, DestDir.remove_apply, DestDir.leave_apply]
      · simp [hq, DestDir.put_apply, DestDir.remove_apply, DestDir.leave_apply]
  | some v =>
    cases hd : deleteOk st.world (Join [destDir, bundleNameOf b]) with
    | false =>
      exfalso
      simp only [hv, hd, Option.isSome_some, if_true, Bool.false_eq_true, if_false] at h
      exact h ⟨b, bundleNameOf b, Join [destDir, bundleNameOf b], some false, none⟩
        (by simp) rfl
    | true =>
      cases hc : cloneOk b (Join [destDir, bundleNameOf b]) with
      | false =>
        simp only [hv, hd, hc, Option.isSome_some, if_true, Bool.false_eq_true, if_false,
          DestDir.remove_apply, Option.isSome_none, Bool.true_eq_false]
        refine ⟨?_, by simp, by simp⟩
        funext q
        simp only [DestDir.recloned, DestDir.remove_apply]
        by_cases hq : q = Join [destDir, bundleNameOf b]
        · simp [hq, hc, DestDir.put_apply, DestDir.remove_apply, DestDir.leave_apply]
        · simp [hq, DestDir.put_apply, DestDir.remove_apply, DestDir.leave_apply]
      | true =>
        simp only [hv, hd, hc, Option.isSome_some, if_true, Bool.false_eq_true, if_false,
          DestDir.remove_apply, Option.isSome_none, Bool.true_eq_false]
        refine ⟨?_, by simp, by simp⟩
        funext q
        simp only [DestDir.recloned, DestDir.remove_apply, DestDir.put_apply]
        by_cases hq : q = Join [destDir, bundleNameOf b]
        · simp [hq, hc, DestDir.put_apply, DestDir.remove_apply, DestDir.leave_apply]
        · simp [hq, DestDir.put_apply, DestDir.remove_apply, DestDir.leave_apply]

theorem foldl_clean (deleteOk : DestDir → GoString → Bool)
    (afterFailedDelete : DestDir → GoString → DestDir)
    (cloneOk : GoString → GoString → Bool)
    (afterFailedClone : GoString → GoString → Option GoString)
    (contents : GoString → GoString)
    (destDir : GoString) (bundleFiles : List GoString) :
    ∀ st : RestoreLoop DestDir,
      (∀ a ∈ (bundleFiles.foldl
        (restoreOne (destDirOS deleteOk afterFailedDelete cloneOk afterFailedClone contents) destDir)
        st).attempts, a.removeAll ≠ some false) →
      (bundleFiles.foldl
          (restoreOne (destDirOS deleteOk afterFailedDelete cloneOk afterFailedClone contents) destDir)
          st).world =
        bundleFiles.foldl (DestDir.recloned cloneOk afterFailedClone contents destDir) st.world ∧
      (bundleFiles.foldl
          (restoreOne (destDirOS deleteOk afterFailedDelete cloneOk afterFailedClone contents) destDir)
          st).successCount =
        st.successCount + ((bundleFiles.filter
          (fun b => cloneOk b (Join [destDir, bundleNameOf b]))).length : Int) ∧
      (bundleFiles.foldl
          (restoreOne (destDirOS deleteOk afterFailedDelete cloneOk afterFailedClone contents) destDir)
          st).failedCount =
        st.failedCount + ((bundleFiles.filter
          (fun b => !cloneOk b (Join [destDir, bundleNameOf b]))).length : Int) := by
  induction bundleFiles with
  | nil =>
    intro st _
    simp
  | cons b bs ih =>
    intro st h
    rw [List.foldl_cons] at h ⊢
    have hstep : ∀ a ∈ (restoreOne (destDirOS deleteOk afterFailedDelete cloneOk afterFailedClone contents)
        destDir st b).attempts, a.removeAll ≠ some false :=
      fun a ha => h a (foldl_attempts_mono _ destDir bs _ a ha)
    obtain ⟨s1, s2, s3⟩ :=
      restoreOne_clean deleteOk afterFailedDelete cloneOk afterFailedClone contents destDir st b hstep
    obtain ⟨k1, k2, k3⟩ := ih _ h
    rw [k1, k2, k3, s1, s2, s3, List.foldl_cons]
    refine ⟨rfl, ?_, ?_⟩
    · cases hc : cloneOk b (Join [destDir, bundleNameOf b]) <;>
        (simp [List.filter_cons, hc]; try omega)
    · cases hc : cloneOk b (Join [destDir, bundleNameOf b]) <;>
        (simp [List.filter_cons, hc]; try omega)

theorem recloned_foldl (cloneOk : GoString → GoString → Bool)
    (afterFailedClone : GoString → GoString → Option GoString)
    (contents : GoString → GoString) (destDir : GoString) (bundleFiles : List GoString)
    (fs : DestDir) (q : GoString) :
    bundleFiles.foldl (DestDir.recloned cloneOk afterFailedClone contents destDir) fs q =
      recreated cloneOk afterFailedClone contents destDir bundleFiles fs q := by
  induction bundleFiles using List.reverseRecOn with
  | nil => rfl
  | append_singleton bs b ih =>
    rw [List.foldl_append]
    simp only [List.foldl_cons, List.foldl_nil, DestDir.recloned, recreated,
      List.reverse_append, List.reverse_cons, List.reverse_nil, List.nil_append,
      List.singleton_append, List.find?_cons]
    by_cases hq : q = Join [destDir, bundleNameOf b]
    · subst hq
      simp
    · have hq2 : ¬ Join [destDir, bundleNameOf b] = q := fun e => hq e.symm
      simp only [hq, hq2, if_false, decide_False]
      rw [ih]
      rfl

theorem recreated_idem (cloneOk : GoString → GoString → Bool)
    (afterFailedClone : GoString → GoString → Option GoString)
    (contents : GoString → GoString) (destDir : GoString) (bundleFiles : List GoString)
    (fs : DestDir) (q : GoString) :
    recreated cloneOk afterFailedClone contents destDir bundleFiles
        (fun p => recreated cloneOk afterFailedClone contents destDir bundleFiles fs p) q =
      recreated cloneOk afterFailedClone contents destDir bundleFiles fs q := by
  unfold recreated
  beta_reduce
  cases h : bundleFiles.reverse.find? (fun b => decide (Join [destDir, bundleNameOf b] = q))
    <;> simp [h]

/-- C9, as amended. In the destination model (a map from destination path to contents;
a delete that succeeds removes exactly the entry, a delete that fails may leave any
state; a clone into an existing destination fails and changes nothing, a clone into an
absent one writes contents fixed by the bundle file or fails and leaves there something
fixed by the bundle file and the destination), when no delete fails in either of two consecutive runs of restore with the force
flag, the second run leaves the same destination state as the first and reports the same
total, succeeded and failed counts. The state after a run holds, at every destination of
a bundle file, what the last such bundle file cloned, and the counts are the numbers of
bundle files whose clone succeeds and fails. -/
theorem C9_restore_force_idempotent (deleteOk : DestDir → GoString → Bool)
    (afterFailedDelete : DestDir → GoString → DestDir)
    (cloneOk : GoString → GoString → Bool)
    (afterFailedClone : GoString → GoString → Option GoString)
    (contents : GoString → GoString)
    (cfg : Config) (response destDir : GoString) (bundleFiles : List GoString)
    (fs : DestDir) (hforce : cfg.Force = true)
    (hfirst : ∀ a ∈ (restoreFrom (destDirOS deleteOk afterFailedDelete cloneOk afterFailedClone contents) cfg response destDir
        bundleFiles fs).attempts,
      a.removeAll ≠ some false)
    (hsecond : ∀ a ∈ (restoreFrom (destDirOS deleteOk afterFailedDelete cloneOk afterFailedClone contents) cfg response destDir
        bundleFiles
        (restoreFrom (destDirOS deleteOk afterFailedDelete cloneOk afterFailedClone contents) cfg response
          destDir bundleFiles fs).world).attempts,
      a.removeAll ≠ some false) :
    (restoreFrom (destDirOS deleteOk afterFailedDelete cloneOk afterFailedClone contents) cfg response destDir
        bundleFiles
        (restoreFrom (destDirOS deleteOk afterFailedDelete cloneOk afterFailedClone contents) cfg response
          destDir bundleFiles fs).world).world =
      (restoreFrom (destDirOS deleteOk afterFailedDelete cloneOk afterFailedClone contents) cfg response destDir
        bundleFiles fs).world ∧
    (∀ q, (restoreFrom (destDirOS deleteOk afterFailedDelete cloneOk afterFailedClone contents) cfg response destDir
        bundleFiles fs).world q =
      recreated cloneOk afterFailedClone contents destDir bundleFiles fs q) ∧
    (restoreFrom (destDirOS deleteOk afterFailedDelete cloneOk afterFailedClone contents) cfg response destDir
        bundleFiles
        (restoreFrom (destDirOS deleteOk afterFailedDelete cloneOk afterFailedClone contents) cfg response
          destDir bundleFiles fs).world).totalCount =
      (restoreFrom (destDirOS deleteOk afterFailedDelete cloneOk afterFailedClone contents) cfg response destDir
        bundleFiles fs).totalCount ∧
    (restoreFrom (destDirOS deleteOk afterFailedDelete cloneOk afterFailedClone contents) cfg response destDir
        bundleFiles
        (restoreFrom (destDirOS deleteOk afterFailedDelete cloneOk afterFailedClone contents) cfg response
          destDir bundleFiles fs).world).successCount =
      (restoreFrom (destDirOS deleteOk afterFailedDelete cloneOk afterFailedClone contents) cfg response destDir
        bundleFiles fs).successCount ∧
    (restoreFrom (destDirOS deleteOk afterFailedDelete cloneOk afterFailedClone contents) cfg response destDir
        bundleFiles
        (restoreFrom (destDirOS deleteOk afterFailedDelete cloneOk afterFailedClone contents) cfg response
          destDir bundleFiles fs).world).failedCount =
      (restoreFrom (destDirOS deleteOk afterFailedDelete cloneOk afterFailedClone contents) cfg response destDir
        bundleFiles fs).failedCount ∧
    (restoreFrom (destDirOS deleteOk afterFailedDelete cloneOk afterFailedClone contents) cfg response destDir
        bundleFiles fs).successCount =
      ((bundleFiles.filter (fun b => cloneOk b (Join [destDir, bundleNameOf b]))).length : Int) ∧
    (restoreFrom (destDirOS deleteOk afterFailedDelete cloneOk afterFailedClone contents) cfg response destDir
        bundleFiles fs).failedCount =
      ((bundleFiles.filter (fun b => !cloneOk b (Join [destDir, bundleNameOf b]))).length : Int)
    := by
  simp only [restoreFrom_force _ cfg response destDir bundleFiles _ hforce] at hfirst hsecond ⊢
  simp only [restoreLoop] at hfirst hsecond ⊢
  obtain ⟨a1, a2, a3⟩ := foldl_clean deleteOk afterFailedDelete cloneOk afterFailedClone contents destDir
    bundleFiles _ hfirst
  obtain ⟨b1, b2, b3⟩ := foldl_clean deleteOk afterFailedDelete cloneOk afterFailedClone contents destDir
    bundleFiles _ hsecond
  simp only at a1 a2 a3 b1 b2 b3
  have hone : ∀ q, (List.foldl (DestDir.recloned cloneOk afterFailedClone contents destDir) fs bundleFiles) q =
      recreated cloneOk afterFailedClone contents destDir bundleFiles fs q :=
    fun q => recloned_foldl cloneOk afterFailedClone contents destDir bundleFiles fs q
  refine ⟨?_, ?_, trivial, ?_, ?_, ?_, ?_⟩
  · rw [b1, a1]
    funext q
    rw [recloned_foldl, hone]
    have hw : List.foldl (DestDir.recloned cloneOk afterFailedClone contents destDir) fs bundleFiles =
        fun p => recreated cloneOk afterFailedClone contents destDir bundleFiles fs p := funext hone
    rw [hw]
    exact recreated_idem cloneOk afterFailedClone contents destDir bundleFiles fs q
  · intro q
    rw [a1]
    exact hone q
  · rw [b2, a2]
  · rw [b3, a3]
  · rw [a2]
    simp
  · rw [a3]
    simp

/-- C9, witness: x.bundle restored twice over a destination that already holds /d/x,
where deletes and clones succeed. -/
theorem C9_restore_force_idempotent_witness :
    (restoreFrom workingOS forceConfig [] "/d".data ["/b/x.bundle".data]
        (restoreFrom workingOS forceConfig [] "/d".data ["/b/x.bundle".data]
          demoFS).world).world =
      (restoreFrom workingOS forceConfig [] "/d".data ["/b/x.bundle".data] demoFS).world ∧
    (restoreFrom workingOS forceConfig [] "/d".data ["/b/x.bundle".data] demoFS).attempts =
      [⟨"/b/x.bundle".data, "x".data, "/d/x".data, some true, some true⟩] ∧
    (restoreFrom workingOS forceConfig [] "/d".data ["/b/x.bundle".data] demoFS).world
      "/d/x".data = some "/b/x.bundle".data ∧
    (restoreFrom workingOS forceConfig [] "/d".data ["/b/x.bundle".data]
        (restoreFrom workingOS forceConfig [] "/d".data ["/b/x.bundle".data]
          demoFS).world).successCount = 1 :=
  ⟨(C9_restore_force_idempotent (fun _ _ => true) (fun fs _ => fs) (fun _ _ => true)
      (fun _ _ => none) (fun b => b) forceConfig [] "/d".data ["/b/x.bundle".data] demoFS rfl
      (by decide) (by decide)).1,
    by decide, by decide, by decide⟩

/-- C9, counterexample. Where a delete fails after emptying the directory, restoring
x.bundle with the force flag into an empty destination leaves /d/x with the cloned
contents and counts one success; the second run leaves /d/x empty and counts one
failure. Where the delete fails in the first run only (the directory was locked and the
failed delete unlocked it), the first run leaves the unlocked directory and counts one
failure, the second leaves the cloned contents and counts one success. -/
theorem C9_not_idempotent_when_delete_fails :
    (restoreFrom emptyingOS forceConfig [] "/d".data ["/b/x.bundle".data] emptyFS).world
        "/d/x".data = some "/b/x.bundle".data ∧
      (restoreFrom emptyingOS forceConfig [] "/d".data ["/b/x.bundle".data]
        (restoreFrom emptyingOS forceConfig [] "/d".data ["/b/x.bundle".data]
          emptyFS).world).world "/d/x".data = some [] ∧
      (restoreFrom emptyingOS forceConfig [] "/d".data ["/b/x.bundle".data]
        emptyFS).successCount = 1 ∧
      (restoreFrom emptyingOS forceConfig [] "/d".data ["/b/x.bundle".data]
        emptyFS).failedCount = 0 ∧
      (restoreFrom emptyingOS forceConfig [] "/d".data ["/b/x.bundle".data]
        (restoreFrom emptyingOS forceConfig [] "/d".data ["/b/x.bundle".data]
          emptyFS).world).successCount = 0 ∧
      (restoreFrom emptyingOS forceConfig [] "/d".data ["/b/x.bundle".data]
        (restoreFrom emptyingOS forceConfig [] "/d".data ["/b/x.bundle".data]
          emptyFS).world).failedCount = 1 ∧
      (restoreFrom emptyingOS forceConfig [] "/d".data ["/b/x.bundle".data]
        (restoreFrom emptyingOS forceConfig [] "/d".data ["/b/x.bundle".data]
          emptyFS).world).world ≠
        (restoreFrom emptyingOS forceConfig [] "/d".data ["/b/x.bundle".data] emptyFS).world ∧
      (restoreFrom lockedOS forceConfig [] "/d".data ["/b/x.bundle".data] lockedFS).world
        "/d/x".data = some "open".data ∧
      (restoreFrom lockedOS forceConfig [] "/d".data ["/b/x.bundle".data]
        lockedFS).failedCount = 1 ∧
      (restoreFrom lockedOS forceConfig [] "/d".data ["/b/x.bundle".data]
        (restoreFrom lockedOS forceConfig [] "/d".data ["/b/x.bundle".data]
          lockedFS).world).world "/d/x".data = some "/b/x.bundle".data ∧
      (restoreFrom lockedOS forceConfig [] "/d".data ["/b/x.bundle".data]
        (restoreFrom lockedOS forceConfig [] "/d".data ["/b/x.bundle".data]
          lockedFS).world).failedCount = 0 := by
  refine ⟨by decide, by decide, by decide, by decide, by decide, by decide, ?_, by decide,
    by decide, by decide, by decide⟩
  intro h
  have h2 := congrFun h "/d/x".data
  revert h2
  decide

theorem restoreFrom_err {σ : Type} (os : RestoreOS σ) (cfg : Config)
    (response destDir : GoString) (bundleFiles : List GoString) (w : σ) :
    (restoreFrom os cfg response destDir bundleFiles w).err = none := by
  have hcases := restoreFrom_cases os cfg response destDir bundleFiles w
  simp only at hcases
  rcases hcases with h | h | h | h
  · exact h.2.1
  · rw [h.2]; rfl
  · rw [h.2.2.2.2]; rfl
  · rw [h.2.2]; rfl

/-- C8. No escalation of per-job failures: once the output directory was created and
find succeeded, backup never returns an error for any schedule and any command outcomes,
and it can always run to its return; once the bundle directory exists, the destination
was created and the glob succeeded, restore returns no error whatever the removals and
clones do; in both cases the exit status is zero. An error is returned only when one of
these setup steps failed. -/
theorem C8_no_escalation :
    (∀ (cfg : Config) (gitDirs : List GoString) (sched : List Sched),
      (∀ err, (backup cfg true (some gitDirs) sched).ret = Return.returned err →
        err = none ∧ exitStatus err = 0) ∧
      ∃ more, (backup cfg true (some gitDirs) (sched ++ more)).ret = Return.returned none) ∧
    (∀ (cfg : Config) (mkdirAllOk : Bool) (find : Option (List GoString))
      (sched : List Sched) (e : BackupError),
      (backup cfg mkdirAllOk find sched).ret = Return.returned (some e) →
        mkdirAllOk = false ∨ find = none) ∧
    (∀ (σ : Type) (os : RestoreOS σ) (cfg : Config) (response bundleDir destDir : GoString)
      (w : σ) (bundleFiles : List GoString),
      os.stat w bundleDir ≠ StatResult.notExist →
      (os.mkdirAll w destDir).1 = true →
      os.glob (os.mkdirAll w destDir).2 (Join [bundleDir, "*.bundle".data]) =
        some bundleFiles →
      (restore os cfg response bundleDir destDir w).err = none ∧
        exitStatus (restore os cfg response bundleDir destDir w).err = 0) ∧
    (∀ (σ : Type) (os : RestoreOS σ) (cfg : Config) (response bundleDir destDir : GoString)
      (w : σ) (e : RestoreError),
      (restore os cfg response bundleDir destDir w).err = some e →
        os.stat w bundleDir = StatResult.notExist ∨ (os.mkdirAll w destDir).1 = false ∨
          os.glob (os.mkdirAll w destDir).2 (Join [bundleDir, "*.bundle".data]) = none) := by
  refine ⟨?_, ?_, ?_, ?_⟩
  · intro cfg gitDirs sched
    refine ⟨?_, backup_completes cfg gitDirs sched⟩
    intro err he
    rcases backup_pool cfg gitDirs sched with h | h | h
    · rw [h.2.2.1] at he
      cases he
      exact ⟨rfl, rfl⟩
    · rw [h.2.2.2.1] at he
      cases he
      exact ⟨rfl, rfl⟩
    · rw [h.2.2.2.1] at he
      cases he
  · intro cfg mkdirAllOk find sched e he
    cases mkdirAllOk with
    | false => exact Or.inl rfl
    | true =>
      cases find with
      | none => exact Or.inr rfl
      | some gitDirs =>
        exfalso
        rcases backup_pool cfg gitDirs sched with h | h | h
        · rw [h.2.2.1] at he
          cases he
        · rw [h.2.2.2.1] at he
          cases he
        · rw [h.2.2.2.1] at he
          cases he
  · intro σ os cfg response bundleDir destDir w bundleFiles h1 h2 h3
    have herr : (restore os cfg response bundleDir destDir w).err = none := by
      unfold restore
      rw [if_neg h1, if_neg (by simp [h2]), h3]
      exact restoreFrom_err os cfg response destDir bundleFiles _
    rw [herr]
    exact ⟨rfl, rfl⟩
  · intro σ os cfg response bundleDir destDir w e he
    by_cases h1 : os.stat w bundleDir = StatResult.notExist
    · exact Or.inl h1
    by_cases h2 : (os.mkdirAll w destDir).1 = false
    · exact Or.inr (Or.inl h2)
    cases h3 : os.glob (os.mkdirAll w destDir).2 (Join [bundleDir, "*.bundle".data]) with
    | none => exact Or.inr (Or.inr rfl)
    | some bundleFiles =>
      exfalso
      unfold restore at he
      rw [if_neg h1, if_neg h2, h3] at he
      simp only at he
      rw [restoreFrom_err] at he
      cases he

/-- C8, witness: two bundles whose clones both fail; restore returns no error. -/
theorem C8_no_escalation_witness :
    (restore demoOS forceConfig [] "/b".data "/d".data demoFS).err = none ∧
      (restore demoOS forceConfig [] "/b".data "/d".data demoFS).failedCount = 2 :=
  ⟨(C8_no_escalation.2.2.1 DestDir demoOS forceConfig [] "/b".data "/d".data demoFS
    ["/b/x.bundle".data, "/b/y.bundle".data] (by decide) (by decide) (by decide)).1,
    by decide⟩

end Gb
